import Mathlib

/-!
Verification of the Othello give-back variant implemented in
`src/othello_game.py` (rules engine) and `src/ai_agent.py` (search agent).

The embedding is shallow: boards are `List (List Int)` like the Python
list-of-lists (cell values 1 = black, -1 = white, 0 = empty), game state is a
structure mirroring the `OthelloGame` attributes, and each Python function
becomes a Lean function of the same name.  Conventions used throughout:

* Python `while` scans along a compass direction are modelled with
  `List.takeWhile` over the (at most 8 step) ray of candidate cells; the loop
  guard `0 <= r < 8 and 0 <= c < 8` bounds every such loop to at most 8
  iterations, because consecutive positions move monotonically in a nonzero
  direction component, so the finite ray is faithful.
* Unguarded Python indexing `board[row][col]` (which wraps negative indices
  and raises `IndexError` out of range) is modelled by `pyGet2` / `pySet`
  returning `Option`; `none` models the exception.  Scans guarded by the
  in-range check use the total accessor `at8` (the guard makes the out-of-range
  default value unreachable).
* Wall-clock reads (`time.time()`) appear only in the search timeout check and
  in `get_time_statistics`; the claims analysed here premise a deadline far in
  the future, under which the timeout branch never fires, so it is omitted and
  evaluation times are passed in as explicit values (`Nat` centiseconds, which
  is exact for the `"%.2f"` formatting used by the logging code).
* The process-global `position_cache` dictionary of `ai_agent.py` is threaded
  explicitly as a `Cache` value; `hash(str(board))` is modelled by keying on
  the board itself (`str` is injective on boards).
* `random.shuffle` inside `sort_moves` is modelled by an arbitrary
  permutation-producing parameter `sh`.
-/

namespace Othello

/-- A board is the Python list of 8 row lists of cell values. -/
abbrev Board := List (List Int)

/-- A board position `(row, col)`, Python integer pair. -/
abbrev Pos := Int × Int

/-- The in-range test `0 <= r < 8 and 0 <= c < 8` used by every scan guard. -/
def inB (r c : Int) : Bool := decide (0 ≤ r ∧ r < 8 ∧ 0 ≤ c ∧ c < 8)

/-- Guarded cell access: the value of `board[r][c]` for in-range `r, c`.
All uses are behind an `inB` guard mirroring the Python short-circuit
`0 <= r < 8 and 0 <= c < 8 and board[r][c] == ...`, so the out-of-range
default 0 is never observable. -/
def at8 (b : Board) (r c : Int) : Int :=
  if inB r c then (b.getD r.toNat []).getD c.toNat 0 else 0

/-- Guarded cell update, used where the Python code writes to coordinates it
has already checked to be in range (flip commits scan in-range ray cells). -/
def set8 (b : Board) (r c : Int) (v : Int) : Board :=
  if inB r c then b.set r.toNat ((b.getD r.toNat []).set c.toNat v) else b

/-- Python list index resolution for a list of length `len`: non-negative
indices below `len` are used as-is, negative indices from `-len` wrap around,
anything else raises `IndexError` (modelled as `none`). -/
def pyIdx (len : Nat) (i : Int) : Option Nat :=
  if 0 ≤ i ∧ i < (len : Int) then some i.toNat
  else if -(len : Int) ≤ i ∧ i < 0 then some (i + (len : Int)).toNat
  else none

/-- The unguarded Python read `board[row][col]`, with wrap-around and
`IndexError` (`none`) semantics. -/
def pyGet2 (b : Board) (r c : Int) : Option Int :=
  match pyIdx b.length r with
  | none => none
  | some rn =>
    match b[rn]? with
    | none => none
    | some row =>
      match pyIdx row.length c with
      | none => none
      | some cn => row[cn]?

/-- The unguarded Python write `board[row][col] = v`, with wrap-around and
`IndexError` (`none`) semantics. -/
def pySet (b : Board) (r c : Int) (v : Int) : Option Board :=
  match pyIdx b.length r with
  | none => none
  | some rn =>
    match b[rn]? with
    | none => none
    | some row =>
      match pyIdx row.length c with
      | none => none
      | some cn => some (b.set rn (row.set cn v))

/-- The eight compass directions, in the order the Python source lists them. -/
def directions : List Pos :=
  [(-1, -1), (-1, 0), (-1, 1), (0, -1), (0, 1), (1, -1), (1, 0), (1, 1)]

/-- The candidate cells of the scan ray from `(row, col)` along `(dr, dc)`:
positions `(row + k*dr, col + k*dc)` for `k = 1..8`.  A guarded while scan can
visit at most these 8 cells before the in-range guard fails for good. -/
def rayCells (row col dr dc : Int) : List Pos :=
  (List.range 8).map fun k => (row + (Int.ofNat k + 1) * dr, col + (Int.ofNat k + 1) * dc)

/-- The contiguous run of opponent disks adjacent to `(row, col)` in direction
`(dr, dc)`: the maximal prefix of the ray that is in range and holds `-p`.
This models the body of each `while 0 <= r < 8 and 0 <= c < 8 and
board[r][c] == -player` loop of the source. -/
def oppRun (b : Board) (p row col dr dc : Int) : List Pos :=
  (rayCells row col dr dc).takeWhile fun q => inB q.1 q.2 && (at8 b q.1 q.2 == -p)

/-- The cell just past a run of length `len` along the ray. -/
def runNext (row col dr dc : Int) (len : Nat) : Pos :=
  (row + ((len : Int) + 1) * dr, col + ((len : Int) + 1) * dc)

/-- Whether direction `(dr, dc)` brackets an opponent run from `(row, col)`:
the run is non-empty and the cell after it is in range and holds `p`.  This is
the commit condition of the scan loops in `is_valid_move`,
`get_flippable_disks`, `flip_disks` and `simulate_move`. -/
def bracketDir (b : Board) (p row col dr dc : Int) : Bool :=
  let run := oppRun b p row col dr dc
  let q := runNext row col dr dc run.length
  !run.isEmpty && (inB q.1 q.2 && (at8 b q.1 q.2 == p))

/-- The cells a single direction contributes to the flip set: its opponent run
when bracketed, nothing otherwise. -/
def dirFlips (b : Board) (p row col dr dc : Int) : List Pos :=
  if bracketDir b p row col dr dc then oppRun b p row col dr dc else []

/-- The most recent action, mirroring `self.last_move` which holds either a
position tuple or the string `"pass"` (or `None`). -/
inductive LastAction where
  | nothing : LastAction
  | at : Pos → LastAction
  | passed : LastAction
deriving DecidableEq, Repr

/-- The `OthelloGame` instance attributes (`__init__`, lines 4-33 of
`othello_game.py`).  `move_times` (a dict keyed by 1 / -1) is split into the
two lists `black_times` / `white_times`; `game_start_time` (a wall-clock read
used only by `get_time_statistics`) is omitted. -/
structure GameState where
  board : Board
  current_player : Int
  player_mode : String
  player_color : Int
  give_back_mode : Bool
  flipped_positions : List Pos
  consecutive_passes : Nat
  move_history : List String
  last_move : LastAction
  last_give_back : Option Pos
  black_times : List Nat
  white_times : List Nat
deriving DecidableEq, Repr

/-- The freshly constructed board: zeros everywhere, then the four centre
disks exactly as `__init__` writes them. -/
def initial_board : Board :=
  set8 (set8 (set8 (set8 (List.replicate 8 (List.replicate 8 0)) 3 3 1) 3 4 (-1)) 4 3 (-1)) 4 4 1

/-- `OthelloGame(player_mode, player_color)`. -/
def initial_game (mode : String) (pcolor : Int) : GameState :=
  { board := initial_board
    current_player := 1
    player_mode := mode
    player_color := pcolor
    give_back_mode := false
    flipped_positions := []
    consecutive_passes := 0
    move_history := []
    last_move := LastAction.nothing
    last_give_back := none
    black_times := []
    white_times := [] }

/-- The default-constructed game (`OthelloGame()`). -/
def std_start : GameState := initial_game "friend" 1

/-- `is_valid_move` (lines 35-78): in give-back mode it is `False`; otherwise
the unguarded read `self.board[row][col]` resolves Python-style (possibly
raising, modelled as `none`); an occupied target is `False`; otherwise the
move is valid iff some direction brackets an opponent run. -/
def is_valid_move (s : GameState) (row col : Int) : Option Bool :=
  if s.give_back_mode then some false
  else
    (pyGet2 s.board row col).map fun v =>
      if v = 0 then
        directions.any fun d => bracketDir s.board s.current_player row col d.1 d.2
      else false

/-- `get_flippable_disks` (lines 80-120): collect, direction by direction, the
bracketed opponent runs.  Every cell access in this function sits behind the
in-range loop guard, so it is total for all integer inputs. -/
def get_flippable_disks (s : GameState) (row col : Int) : List Pos :=
  directions.foldl
    (fun acc d => acc ++ dirFlips s.board s.current_player row col d.1 d.2) []

/-- One direction step of the mutating flip loop shared by `flip_disks`
(lines 122-163) and `simulate_move` (`ai_agent.py` lines 218-249): compute the
bracketed run against the current board, flip its cells to `p`, and append the
flipped cells to the accumulated list.  (`simulate_move` lacks the `break` of
`flip_disks`, but after a commit the while condition `board[r][c] == -player`
fails at the terminating same-colour disk, so both loops commit each direction
at most once and are the same function of the incoming board.) -/
def flipStep (p row col : Int) (acc : Board × List Pos) (d : Pos) : Board × List Pos :=
  let fl := dirFlips acc.1 p row col d.1 d.2
  (fl.foldl (fun b q => set8 b q.1 q.2 p) acc.1, acc.2 ++ fl)

/-- `flip_disks` (lines 122-163) as a function of the board it mutates:
returns the updated board and the list of flipped positions.  Later directions
scan the board as already mutated by earlier ones, exactly as in the source. -/
def flip_disks (b : Board) (p row col : Int) : Board × List Pos :=
  directions.foldl (flipStep p row col) (b, [])

/-- `"BLACK" if self.current_player == 1 else "WHITE"`. -/
def colorName (p : Int) : String := if p = 1 then "BLACK" else "WHITE"

/-- `f"{chr(65 + row)}{col + 1}"`: the letter encodes the ROW, the number the
COLUMN (so `(0,0) ↦ "A1"`, `(2,4) ↦ "C5"`). -/
def posName (row col : Int) : String :=
  String.singleton (Char.ofNat (65 + row).toNat) ++ toString (col + 1)

/-- `f"{t:.2f}"` for an execution time of `t` centiseconds: always exactly two
digits after the decimal point. -/
def fmt2 (t : Nat) : String :=
  toString (t / 100) ++ "." ++
    (if t % 100 < 10 then "0" ++ toString (t % 100) else toString (t % 100))

/-- Append `t` to `self.move_times[self.current_player]`.  The Python dict has
exactly the keys 1 and -1; claims about timing are scoped to states whose
current player is one of the two colours. -/
def addTime (s : GameState) (t : Nat) : GameState :=
  if s.current_player = 1 then { s with black_times := s.black_times ++ [t] }
  else { s with white_times := s.white_times ++ [t] }

/-- The per-player timing sequence `self.move_times[p]`. -/
def timesOf (s : GameState) (p : Int) : List Nat :=
  if p = 1 then s.black_times else s.white_times

/-- `make_move` (lines 165-212).  `none` models an uncaught `IndexError` from
the unguarded board accesses; otherwise the result carries the new state and
the returned boolean. -/
def make_move (s : GameState) (row col : Int) (t : Nat) : Option (GameState × Bool) :=
  if s.give_back_mode then some (s, false)
  else
    match is_valid_move s row col with
    | none => none
    | some false => some (s, false)
    | some true =>
      match pySet s.board row col s.current_player with
      | none => none
      | some placed =>
        let s1 := addTime s t
        let record := colorName s.current_player ++ ": " ++ posName row col ++
          " [" ++ fmt2 t ++ "s]"
        let s2 := { s1 with
          last_move := LastAction.at (row, col)
          last_give_back := none
          move_history := s1.move_history ++ [record] }
        let fd := flip_disks placed s.current_player row col
        let s3 := { s2 with board := fd.1, flipped_positions := fd.2 }
        if 2 ≤ fd.2.length then some ({ s3 with give_back_mode := true }, true)
        else some ({ s3 with current_player := -s3.current_player }, true)

/-- `give_back_disk` (lines 214-256). -/
def give_back_disk (s : GameState) (row col : Int) (t : Nat) : Option (GameState × Bool) :=
  if s.give_back_mode ∧ (row, col) ∈ s.flipped_positions then
    match pySet s.board row col (-s.current_player) with
    | none => none
    | some b' =>
      let s1 := addTime s t
      let record := colorName s.current_player ++ ": gave back at " ++ posName row col ++
        " [" ++ fmt2 t ++ "s]"
      some ({ s1 with
        last_give_back := some (row, col)
        move_history := s1.move_history ++ [record]
        board := b'
        give_back_mode := false
        flipped_positions := []
        current_player := -s.current_player }, true)
  else some (s, false)

/-- `get_valid_moves` (lines 369-385): empty in give-back mode, else the
row-major list of cells on which `is_valid_move` holds. -/
def get_valid_moves (s : GameState) : List Pos :=
  if s.give_back_mode then []
  else
    (List.range 8).foldl
      (fun acc r =>
        (List.range 8).foldl
          (fun acc2 c =>
            if is_valid_move s (Int.ofNat r) (Int.ofNat c) = some true
            then acc2 ++ [(Int.ofNat r, Int.ofNat c)] else acc2)
          acc)
      []

/-- `has_valid_moves` (lines 276-283). -/
def has_valid_moves (s : GameState) : Bool := decide (0 < (get_valid_moves s).length)

/-- `pass_turn` (lines 285-321); no fallible access, so it is total. -/
def pass_turn (s : GameState) (t : Nat) : GameState × Bool :=
  if s.give_back_mode || has_valid_moves s then (s, false)
  else
    let s1 := addTime s t
    let record := colorName s.current_player ++ ": pass turn [" ++ fmt2 t ++ "s]"
    ({ s1 with
      move_history := s1.move_history ++ [record]
      last_move := LastAction.passed
      last_give_back := none
      consecutive_passes := s1.consecutive_passes + 1
      current_player := -s1.current_player }, true)

/-- The temporary player switch `self.current_player *= -1` used by
`is_game_over` to probe the opponent's mobility. -/
def flip_player (s : GameState) : GameState := { s with current_player := -s.current_player }

/-- `all(all(cell != 0 for cell in row) for row in self.board)`. -/
def boardFull (b : Board) : Bool := b.all fun row => row.all fun cell => decide (cell ≠ 0)

/-- `is_game_over` (lines 323-350), returned together with the state as left
behind by the probe (the player is flipped, checked, and flipped back). -/
def is_game_over (s : GameState) : Bool × GameState :=
  if s.give_back_mode then (false, s)
  else if 10 ≤ s.consecutive_passes then (true, s)
  else if boardFull s.board then (true, s)
  else
    let current_has := has_valid_moves s
    let s1 := flip_player s
    let opponent_has := has_valid_moves s1
    let s2 := flip_player s1
    (!(current_has || opponent_has), s2)

/-- `sum(row.count(v) for row in board)`. -/
def boardCount (b : Board) (v : Int) : Nat := (b.map fun row => row.count v).sum

/-- `get_winner` (lines 352-367). -/
def get_winner (s : GameState) : Int :=
  let black_count := boardCount s.board 1
  let white_count := boardCount s.board (-1)
  if white_count < black_count then 1
  else if black_count < white_count then -1
  else 0

/-!  ### Search agent (`ai_agent.py`)  -/

/-- Python float values taken by the search: either a genuine (integer-valued)
evaluation or one of the sentinels `float("-inf")` / `float("inf")`. -/
inductive XInt where
  | ninf : XInt
  | fin : Int → XInt
  | pinf : XInt
deriving DecidableEq, Repr

/-- Whether a search value is a genuine evaluation (not a sentinel). -/
def XInt.isFin : XInt → Bool
  | .fin _ => true
  | _ => false

/-- The `<` comparison on search values. -/
def XInt.lt : XInt → XInt → Bool
  | .ninf, .ninf => false
  | .ninf, _ => true
  | .fin _, .ninf => false
  | .fin a, .fin b => decide (a < b)
  | .fin _, .pinf => true
  | .pinf, _ => false

/-- Python `max(a, b)`: `a` when `a >= b`, else `b`. -/
def XInt.maxP (a b : XInt) : XInt := if XInt.lt a b then b else a

/-- Python `min(a, b)`: `a` when `a <= b`, else `b`. -/
def XInt.minP (a b : XInt) : XInt := if XInt.lt b a then b else a

/-- A transposition-cache key `(hash(str(board)), max_depth, maximizing_player)`;
`str` is injective on boards, so the board itself stands in for its hash. -/
abbrev CKey := Board × Nat × Bool

/-- The global `position_cache` dict, threaded explicitly.  Insertion conses;
lookup takes the most recent binding, modelling dict overwrite. -/
abbrev Cache := List (CKey × (XInt × Option Pos))

/-- Dict lookup `position_cache[cache_key]`. -/
def lookupCache (c : Cache) (k : CKey) : Option (XInt × Option Pos) :=
  (c.find? fun e => decide (e.1 = k)).map (·.2)

/-- Dict store `position_cache[cache_key] = result`. -/
def storeCache (c : Cache) (k : CKey) (v : XInt × Option Pos) : Cache := (k, v) :: c

/-- `OthelloGame(player_mode=...)` followed by the two field assignments
`new_game.board = ...; new_game.current_player = ...` used throughout
`ai_agent.py` to build simulation states. -/
def fresh_game (mode : String) (b : Board) (p : Int) : GameState :=
  { initial_game mode 1 with board := b, current_player := p }

/-- The corner list `[(0, 0), (0, 7), (7, 0), (7, 7)]`. -/
def cornersL : List Pos := [(0, 0), (0, 7), (7, 0), (7, 7)]

/-- `[(i, j) for i in [0, 7] for j in range(1, 7)] + [(i, j) for i in
range(1, 7) for j in [0, 7]]` (the edge list of `sort_moves` and
`simple_give_back`). -/
def edgesL : List Pos :=
  (([0, 7] : List Int).flatMap fun i => (List.range 6).map fun j => (i, (j : Int) + 1)) ++
    ((List.range 6).flatMap fun i => ([0, 7] : List Int).map fun j => ((i : Int) + 1, j))

/-- `sort_moves` (lines 191-215): partition into corner / edge / other moves
(`if` / `elif` / `else`, order-preserving), shuffle each tier with the
unseeded `random.shuffle` — modelled by the arbitrary function `sh` — and
concatenate. -/
def sort_moves (sh : List Pos → List Pos) (moves : List Pos) : List Pos :=
  let corner_moves := moves.filter fun m => cornersL.contains m
  let edge_moves := moves.filter fun m => !cornersL.contains m && edgesL.contains m
  let other_moves := moves.filter fun m => !cornersL.contains m && !edgesL.contains m
  sh corner_moves ++ sh edge_moves ++ sh other_moves

/-- `simulate_move` (lines 218-249): fail on an occupied target (the unguarded
read is in range for every caller, which draws moves from `get_valid_moves`);
otherwise run the same per-direction flip loop as `flip_disks` on the board
without the new disk, and on a non-empty flip set place the disk and succeed. -/
def simulate_move (b : Board) (row col p : Int) : Bool × List Pos × Board :=
  if at8 b row col ≠ 0 then (false, [], b)
  else if (directions.foldl (flipStep p row col) (b, [])).2.isEmpty
  then (false, [], (directions.foldl (flipStep p row col) (b, [])).1)
  else (true, (directions.foldl (flipStep p row col) (b, [])).2,
    set8 (directions.foldl (flipStep p row col) (b, [])).1 row col p)

/-- `simple_give_back` (lines 252-270): first flipped corner, else first
flipped edge, else the first flipped cell.  Callers guarantee a non-empty
list (Python would raise `IndexError` otherwise); the `(0, 0)` default of the
final `headD` is unreachable under that guarantee. -/
def simple_give_back (flipped : List Pos) : Pos :=
  match flipped.find? fun q => cornersL.contains q with
  | some q => q
  | none =>
    match flipped.find? fun q => edgesL.contains q with
    | some q => q
    | none => flipped.headD (0, 0)

/-- `quick_evaluate` (lines 273-288). -/
def quick_evaluate (g : GameState) : Int :=
  let player_disks := boardCount g.board g.current_player
  let opponent_disks := boardCount g.board (-g.current_player)
  let player_corners := (cornersL.filter fun q => at8 g.board q.1 q.2 == g.current_player).length
  let opponent_corners := (cornersL.filter fun q => at8 g.board q.1 q.2 == -g.current_player).length
  ((player_disks : Int) - (opponent_disks : Int)) +
    10 * ((player_corners : Int) - (opponent_corners : Int))

/-- `early_game_evaluation` (lines 316-329). -/
def early_game_evaluation (g : GameState) : Int :=
  let player_moves := (get_valid_moves g).length
  let player_corners := (cornersL.filter fun q => at8 g.board q.1 q.2 == g.current_player).length
  let opponent_corners := (cornersL.filter fun q => at8 g.board q.1 q.2 == -g.current_player).length
  (player_moves : Int) * 2 + ((player_corners : Int) - (opponent_corners : Int)) * 25

/-- `mid_game_evaluation` (lines 332-351). -/
def mid_game_evaluation (g : GameState) : Int :=
  let player_disks := boardCount g.board g.current_player
  let opponent_disks := boardCount g.board (-g.current_player)
  let disk_diff := (player_disks : Int) - (opponent_disks : Int)
  let player_corners := (cornersL.filter fun q => at8 g.board q.1 q.2 == g.current_player).length
  let opponent_corners := (cornersL.filter fun q => at8 g.board q.1 q.2 == -g.current_player).length
  let corner_diff := (player_corners : Int) - (opponent_corners : Int)
  let player_moves := (get_valid_moves g).length
  disk_diff + corner_diff * 25 + (player_moves : Int) * 2

/-- `late_game_evaluation` (lines 354-362). -/
def late_game_evaluation (g : GameState) : Int :=
  (boardCount g.board g.current_player : Int) - (boardCount g.board (-g.current_player) : Int)

/-- `evaluate_game_state` (lines 291-313). -/
def evaluate_game_state (g : GameState) : Int :=
  if (is_game_over g).1 then
    let winner := get_winner g
    if winner = g.current_player then 10000
    else if winner = -g.current_player then -10000
    else 0
  else
    let total_disks := boardCount g.board 1 + boardCount g.board (-1)
    if total_disks < 20 then early_game_evaluation g
    else if total_disks < 50 then mid_game_evaluation g
    else late_game_evaluation g

/-- The give-back adjustment of the simulated child board (`ai_agent.py`
lines 121-126 and 162-166): when the simulated move flipped two or more
disks, immediately hand back the disk chosen by `simple_give_back`. -/
def giveBackAdjust (p : Int) (sim : Bool × List Pos × Board) : Board :=
  if 2 ≤ sim.2.1.length then
    set8 sim.2.2 (simple_give_back sim.2.1).1 (simple_give_back sim.2.1).2 (-p)
  else sim.2.2

/-- The body of the `for move in valid_moves` loop of the maximizing branch of
`alphabeta` (lines 107-147), with the recursive evaluation of a child board
abstracted as `child` (it receives the child board and player and returns the
value and updated cache).  Carries `(max_eval, best_move, alpha)`. -/
def abMax (child : Board → Int → XInt → XInt → Cache → XInt × Cache)
    (p : Int) (b : Board) :
    List Pos → XInt → Option Pos → XInt → XInt → Cache → XInt × Option Pos × Cache
  | [], best, bm, _, _, c => (best, bm, c)
  | m :: ms, best, bm, a, bb, c =>
    if !(simulate_move b m.1 m.2 p).1 then abMax child p b ms best bm a bb c
    else
      let r := child (giveBackAdjust p (simulate_move b m.1 m.2 p)) (-p) a bb c
      let best' := if XInt.lt best r.1 then r.1 else best
      let bm' := if XInt.lt best r.1 then some m else bm
      let a' := XInt.maxP a r.1
      if XInt.lt a' bb then abMax child p b ms best' bm' a' bb r.2
      else (best', bm', r.2)

/-- The body of the `for move in valid_moves` loop of the minimizing branch of
`alphabeta` (lines 148-188), carrying `(min_eval, best_move, beta)`. -/
def abMin (child : Board → Int → XInt → XInt → Cache → XInt × Cache)
    (p : Int) (b : Board) :
    List Pos → XInt → Option Pos → XInt → XInt → Cache → XInt × Option Pos × Cache
  | [], best, bm, _, _, c => (best, bm, c)
  | m :: ms, best, bm, a, bb, c =>
    if !(simulate_move b m.1 m.2 p).1 then abMin child p b ms best bm a bb c
    else
      let r := child (giveBackAdjust p (simulate_move b m.1 m.2 p)) (-p) a bb c
      let best' := if XInt.lt r.1 best then r.1 else best
      let bm' := if XInt.lt r.1 best then some m else bm
      let bb' := XInt.minP bb r.1
      if XInt.lt a bb' then abMin child p b ms best' bm' a bb' r.2
      else (best', bm', r.2)

/-- `alphabeta` (lines 68-188), with the never-firing wall-clock timeout
branch (line 75, dead under the far-future-deadline premise of the analysed
scenario) omitted and the global cache threaded.  Returns
`(value, best_move, cache)`. -/
def alphabeta (sh : List Pos → List Pos) :
    Nat → GameState → Bool → XInt → XInt → Cache → XInt × Option Pos × Cache
  | 0, g, _, _, _, c => (XInt.fin (evaluate_game_state g), none, c)
  | Nat.succ d, g, maxing, a, bb, c =>
    if (is_game_over g).1 then (XInt.fin (evaluate_game_state g), none, c)
    else
      match lookupCache c (g.board, d + 1, maxing) with
      | some r => (r.1, r.2, c)
      | none =>
        let valid_moves := get_valid_moves g
        if valid_moves.isEmpty then
          let new_game := fresh_game g.player_mode g.board (-g.current_player)
          let r := alphabeta sh d new_game (!maxing) a bb c
          (r.1, none, r.2.2)
        else
          let sorted := sort_moves sh valid_moves
          let child := fun b1 p1 a1 b2 c1 =>
            let r := alphabeta sh d (fresh_game g.player_mode b1 p1) (!maxing) a1 b2 c1
            (r.1, r.2.2)
          if maxing then
            let r := abMax child g.current_player g.board sorted
              XInt.ninf none a bb c
            (r.1, r.2.1, storeCache r.2.2 (g.board, d + 1, maxing) (r.1, r.2.1))
          else
            let r := abMin child g.current_player g.board sorted
              XInt.pinf none a bb c
            (r.1, r.2.1, storeCache r.2.2 (g.board, d + 1, maxing) (r.1, r.2.1))

/-- The give-back simulation of `get_best_give_back` (lines 390-400): copy the
state, hand the chosen disk to the opponent, switch the player. -/
def give_back_sim (g : GameState) (pos : Pos) : GameState :=
  fresh_game g.player_mode (set8 g.board pos.1 pos.2 (-g.current_player)) (-g.current_player)

/-- The `for pos in give_back_options` loop of `get_best_give_back`
(lines 390-408), carrying `(best_score, best_position)`. -/
def gbLoop (sh : List Pos → List Pos) (g : GameState) (maxd : Nat) :
    List Pos → XInt → Pos → Cache → Pos × Cache
  | [], _, best, c => (best, c)
  | pos :: rest, bestScore, best, c =>
    let r := alphabeta sh maxd (give_back_sim g pos) true XInt.ninf XInt.pinf c
    if XInt.lt r.1 bestScore then gbLoop sh g maxd rest r.1 pos r.2.2
    else gbLoop sh g maxd rest bestScore best r.2.2

/-- `get_best_give_back` (lines 365-410): with at most one candidate return it
outright (`none` models the `IndexError` on an empty candidate list);
otherwise keep the candidate whose post-give-back alpha-beta value is
smallest. -/
def get_best_give_back (sh : List Pos → List Pos) (g : GameState) (maxd : Nat)
    (c : Cache) : Option Pos × Cache :=
  match g.flipped_positions with
  | [] => (none, c)
  | o :: rest =>
    if rest.isEmpty then (some o, c)
    else
      let r := gbLoop sh g maxd (o :: rest) XInt.pinf o c
      (some r.1, r.2)

/-- `get_best_move` (lines 8-35): pick the depth from the empty-cell count
(the `max_depth` parameter defaults to 8), delegate to the give-back search in
give-back mode, otherwise run alpha-beta as the maximizing side and return its
move. -/
def get_best_move (sh : List Pos → List Pos) (g : GameState) (max_depth : Nat)
    (c : Cache) : Option Pos × Cache :=
  let empty_count := boardCount g.board 0
  let maxd := if empty_count ≤ 10 then 6 else if 50 ≤ empty_count then 4 else max_depth
  if g.give_back_mode then get_best_give_back sh g 6 c
  else
    let r := alphabeta sh maxd g true XInt.ninf XInt.pinf c
    (r.2.1, r.2.2)

/-!  ### Board access and update lemmas  -/

/-- A cell that genuinely exists on the Python board: in range and backed by
actual list entries (so reads and writes at it are exact). -/
def okCell (b : Board) (r c : Int) : Prop :=
  inB r c = true ∧ r.toNat < b.length ∧ c.toNat < ((b[r.toNat]?).getD []).length

/-- A well-formed 8×8 board. -/
def WFBoard (b : Board) : Prop := b.length = 8 ∧ ∀ r ∈ b, r.length = 8

instance (b : Board) : Decidable (WFBoard b) := by
  unfold WFBoard; infer_instance

theorem inB_iff {r c : Int} : inB r c = true ↔ 0 ≤ r ∧ r < 8 ∧ 0 ≤ c ∧ c < 8 := by
  simp [inB]

theorem at8_of_ne_zero {b : Board} {r c : Int} (h : at8 b r c ≠ 0) : okCell b r c := by
  by_cases hb : inB r c
  · have hr : r.toNat < b.length := by
      by_contra hlen
      have hnone : b[r.toNat]? = none := List.getElem?_eq_none (Nat.le_of_not_lt hlen)
      rw [at8, if_pos hb, List.getD_eq_getElem?_getD, List.getD_eq_getElem?_getD, hnone] at h
      simp at h
    have hc : c.toNat < ((b[r.toNat]?).getD []).length := by
      by_contra hlen
      have hnone : ((b[r.toNat]?).getD [])[c.toNat]? = none :=
        List.getElem?_eq_none (Nat.le_of_not_lt hlen)
      rw [at8, if_pos hb, List.getD_eq_getElem?_getD, List.getD_eq_getElem?_getD, hnone] at h
      simp at h
    exact ⟨hb, hr, hc⟩
  · simp [at8, hb] at h

theorem set8_not_inB {b : Board} {r c v : Int} (h : inB r c = false) : set8 b r c v = b := by
  simp [set8, h]

theorem at8_not_inB {b : Board} {r c : Int} (h : inB r c = false) : at8 b r c = 0 := by
  simp [at8, h]

theorem at8_set8_same {b : Board} {r c : Int} (v : Int) (h : okCell b r c) :
    at8 (set8 b r c v) r c = v := by
  obtain ⟨hin, hr, hc⟩ := h
  simp only [at8, set8, hin, if_true, List.getD_eq_getElem?_getD]
  rw [List.getElem?_set_self (by simpa using hr), Option.getD_some,
    List.getElem?_set_self (by simpa using hc), Option.getD_some]

/-- In-range coordinates with equal truncations are equal. -/
theorem int_toNat_inj {a b : Int} (ha : 0 ≤ a) (hb : 0 ≤ b) (h : a.toNat = b.toNat) :
    a = b := by omega

theorem at8_set8_ne {b : Board} {r c r' c' : Int} (v : Int)
    (h : ¬(r' = r ∧ c' = c)) : at8 (set8 b r c v) r' c' = at8 b r' c' := by
  by_cases hin : inB r c
  · by_cases hin' : inB r' c'
    · obtain ⟨hr0, hr8, hc0, hc8⟩ := inB_iff.mp hin
      obtain ⟨hr0', hr8', hc0', hc8'⟩ := inB_iff.mp hin'
      simp only [at8, set8, hin, hin', if_true, List.getD_eq_getElem?_getD]
      by_cases hrr : r' = r
      · subst hrr
        have hcc : c.toNat ≠ c'.toNat := fun hn =>
          h ⟨rfl, int_toNat_inj hc0' hc0 hn.symm⟩
        by_cases hlen : r'.toNat < b.length
        · rw [List.getElem?_set_self (by simpa using hlen), Option.getD_some,
            List.getElem?_set_ne hcc]
        · rw [List.set_eq_of_length_le (Nat.le_of_not_lt hlen)]
      · have hrr' : r.toNat ≠ r'.toNat := fun hn =>
          hrr (int_toNat_inj hr0' hr0 hn.symm)
        rw [List.getElem?_set_ne hrr']
    · simp [at8, hin']
  · simp [set8, hin]

theorem length_set8 (b : Board) (r c v : Int) : (set8 b r c v).length = b.length := by
  unfold set8; split <;> simp

theorem getD_length_set8 (b : Board) (r c v : Int) (r' : Nat) :
    (((set8 b r c v)[r']?).getD []).length = ((b[r']?).getD []).length := by
  unfold set8
  split
  · simp only [List.getD_eq_getElem?_getD]
    by_cases hrr : r.toNat = r'
    · subst hrr
      by_cases hlen : r.toNat < b.length
      · rw [List.getElem?_set_self (by simpa using hlen), Option.getD_some,
          List.length_set, List.getElem?_eq_getElem hlen, Option.getD_some]
      · rw [List.set_eq_of_length_le (Nat.le_of_not_lt hlen)]
    · rw [List.getElem?_set_ne hrr]
  · rfl

theorem okCell_set8 {b : Board} {r' c' : Int} (r c v : Int) (h : okCell b r' c') :
    okCell (set8 b r c v) r' c' := by
  obtain ⟨h1, h2, h3⟩ := h
  exact ⟨h1, by rwa [length_set8], by rwa [getD_length_set8]⟩

theorem pyIdx_inRange {len : Nat} {i : Int} (h0 : 0 ≤ i) (h1 : i < (len : Int)) :
    pyIdx len i = some i.toNat := by
  simp [pyIdx, h0, h1]

theorem pyIdx_none {len : Nat} {i : Int} (h : i < -(len : Int) ∨ (len : Int) ≤ i) :
    pyIdx len i = none := by
  unfold pyIdx
  rcases h with h | h
  · rw [if_neg (by omega), if_neg (by omega)]
  · rw [if_neg (by omega), if_neg (by omega)]

theorem pyIdx_some_elim {len : Nat} {i : Int} {n : Nat} (h0 : 0 ≤ i)
    (h : pyIdx len i = some n) : n = i.toNat ∧ i.toNat < len := by
  unfold pyIdx at h
  split at h
  · next hcond => exact ⟨(Option.some_injective _ h).symm, by omega⟩
  · split at h
    · next h1 h2 => omega
    · exact absurd h (by simp)

theorem pyGet2_ok {b : Board} {r c v : Int} (hr : 0 ≤ r ∧ r < 8) (hc : 0 ≤ c ∧ c < 8)
    (h : pyGet2 b r c = some v) : okCell b r c ∧ at8 b r c = v := by
  unfold pyGet2 at h
  split at h
  · exact absurd h (by simp)
  next rn hidx =>
    obtain ⟨hrn_eq, hrn⟩ := pyIdx_some_elim hr.1 hidx
    subst hrn_eq
    split at h
    · exact absurd h (by simp)
    next row hrow =>
      rw [List.getElem?_eq_getElem hrn] at hrow
      have hrow' : row = b[r.toNat] := (Option.some_injective _ hrow.symm)
      subst hrow'
      split at h
      · exact absurd h (by simp)
      next cn hcidx =>
        obtain ⟨hcn_eq, hcn⟩ := pyIdx_some_elim hc.1 hcidx
        subst hcn_eq
        have hin : inB r c = true := inB_iff.mpr ⟨hr.1, hr.2, hc.1, hc.2⟩
        have hrowD : (b[r.toNat]?).getD [] = b[r.toNat] := by
          rw [List.getElem?_eq_getElem hrn]; rfl
        refine ⟨⟨hin, hrn, by rw [hrowD]; exact hcn⟩, ?_⟩
        rw [at8, if_pos hin, List.getD_eq_getElem?_getD, List.getD_eq_getElem?_getD,
          hrowD, h]
        rfl

theorem pyGet2_of_okCell {b : Board} {r c : Int} (h : okCell b r c) :
    pyGet2 b r c = some (at8 b r c) := by
  obtain ⟨hin, hrlen, hclen⟩ := h
  obtain ⟨hr0, hr8, hc0, hc8⟩ := inB_iff.mp hin
  have hrow : (b[r.toNat]?).getD [] = b[r.toNat] := by
    rw [List.getElem?_eq_getElem hrlen]; rfl
  rw [hrow] at hclen
  simp only [pyGet2, pyIdx_inRange hr0 (show r < (b.length : Int) by omega),
    List.getElem?_eq_getElem hrlen,
    pyIdx_inRange hc0 (show c < ((b[r.toNat]).length : Int) by omega),
    List.getElem?_eq_getElem hclen]
  rw [at8, if_pos hin, List.getD_eq_getElem?_getD, List.getD_eq_getElem?_getD, hrow,
    List.getElem?_eq_getElem hclen]
  rfl

theorem pySet_of_okCell {b : Board} {r c : Int} (v : Int) (h : okCell b r c) :
    pySet b r c v = some (set8 b r c v) := by
  obtain ⟨hin, hrlen, hclen⟩ := h
  obtain ⟨hr0, hr8, hc0, hc8⟩ := inB_iff.mp hin
  have hrow : (b[r.toNat]?).getD [] = b[r.toNat] := by
    rw [List.getElem?_eq_getElem hrlen]; rfl
  rw [hrow] at hclen
  simp only [pySet, pyIdx_inRange hr0 (show r < (b.length : Int) by omega),
    List.getElem?_eq_getElem hrlen,
    pyIdx_inRange hc0 (show c < ((b[r.toNat]).length : Int) by omega)]
  rw [set8, if_pos hin, List.getD_eq_getElem?_getD, hrow]

theorem pyGet2_wf {b : Board} {r c : Int} (hw : WFBoard b)
    (hr : 0 ≤ r ∧ r < 8) (hc : 0 ≤ c ∧ c < 8) : pyGet2 b r c = some (at8 b r c) := by
  have hb8 : b.length = 8 := hw.1
  have hrlen : r.toNat < b.length := by omega
  refine pyGet2_of_okCell ⟨inB_iff.mpr ⟨hr.1, hr.2, hc.1, hc.2⟩, hrlen, ?_⟩
  rw [List.getElem?_eq_getElem hrlen, Option.getD_some, hw.2 _ (b.getElem_mem hrlen)]
  omega

/-!  ### Scan and flip-fold lemmas  -/

theorem takeWhile_congr {α : Type} {p q : α → Bool} :
    ∀ {l : List α}, (∀ a ∈ l, p a = q a) → l.takeWhile p = l.takeWhile q
  | [], _ => rfl
  | x :: xs, h => by
    simp only [List.takeWhile_cons, h x (List.mem_cons_self x xs)]
    split
    · rw [takeWhile_congr fun a ha => h a (List.mem_cons_of_mem x ha)]
    · rfl

theorem mem_ray_elim {q : Pos} {row col dr dc : Int} (h : q ∈ rayCells row col dr dc) :
    ∃ m : Int, m ≠ 0 ∧ q = (row + m * dr, col + m * dc) := by
  unfold rayCells at h
  obtain ⟨k, -, hk⟩ := List.mem_map.mp h
  refine ⟨Int.ofNat k + 1, ?_, hk.symm⟩
  have h0 : (0 : Int) ≤ Int.ofNat k := Int.ofNat_nonneg k
  omega

theorem ray_ne_origin {q : Pos} {row col dr dc : Int} (hd : ¬(dr = 0 ∧ dc = 0))
    (h : q ∈ rayCells row col dr dc) : ¬(q.1 = row ∧ q.2 = col) := by
  obtain ⟨m, hm, hk⟩ := mem_ray_elim h
  subst hk
  rintro ⟨h1, h2⟩
  simp only at h1 h2
  have h1' : m * dr = 0 := by linarith
  have h2' : m * dc = 0 := by linarith
  exact hd ⟨(mul_eq_zero.mp h1').resolve_left hm, (mul_eq_zero.mp h2').resolve_left hm⟩

theorem runNext_ne_origin {row col dr dc : Int} {len : Nat} (hd : ¬(dr = 0 ∧ dc = 0)) :
    ¬((runNext row col dr dc len).1 = row ∧ (runNext row col dr dc len).2 = col) := by
  rintro ⟨h1, h2⟩
  simp only [runNext] at h1 h2
  have hm : ((len : Int) + 1) ≠ 0 := by omega
  have h1' : ((len : Int) + 1) * dr = 0 := by linarith
  have h2' : ((len : Int) + 1) * dc = 0 := by linarith
  exact hd ⟨(mul_eq_zero.mp h1').resolve_left hm, (mul_eq_zero.mp h2').resolve_left hm⟩

theorem mem_oppRun {b : Board} {p row col dr dc : Int} {q : Pos}
    (h : q ∈ oppRun b p row col dr dc) :
    inB q.1 q.2 = true ∧ at8 b q.1 q.2 = -p ∧ q ∈ rayCells row col dr dc := by
  have hpred := List.mem_takeWhile_imp h
  have hmem : q ∈ rayCells row col dr dc :=
    (List.takeWhile_prefix _).subset h
  simp only [Bool.and_eq_true, beq_iff_eq] at hpred
  exact ⟨hpred.1, hpred.2, hmem⟩

theorem dirFlips_subset_oppRun {b : Board} {p row col dr dc : Int} {q : Pos}
    (h : q ∈ dirFlips b p row col dr dc) : q ∈ oppRun b p row col dr dc := by
  unfold dirFlips at h
  split at h
  · exact h
  · exact absurd h (List.not_mem_nil q)

theorem dirFlips_ne_nil_iff {b : Board} {p row col dr dc : Int} :
    dirFlips b p row col dr dc ≠ [] ↔ bracketDir b p row col dr dc = true := by
  unfold dirFlips
  split
  · next hbr =>
    simp only [hbr, iff_true]
    have : (oppRun b p row col dr dc).isEmpty = false := by
      unfold bracketDir at hbr
      simp only [Bool.and_eq_true, Bool.not_eq_true'] at hbr
      exact hbr.1
    simpa [List.isEmpty_iff] using this
  · next hbr => simp [Bool.not_eq_true] at hbr ⊢; exact hbr

theorem oppRun_set_origin {b : Board} {p row col dr dc v : Int}
    (hd : ¬(dr = 0 ∧ dc = 0)) :
    oppRun (set8 b row col v) p row col dr dc = oppRun b p row col dr dc := by
  unfold oppRun
  refine takeWhile_congr fun q hq => ?_
  rw [at8_set8_ne v (ray_ne_origin hd hq)]

theorem bracketDir_set_origin {b : Board} {p row col dr dc v : Int}
    (hd : ¬(dr = 0 ∧ dc = 0)) :
    bracketDir (set8 b row col v) p row col dr dc = bracketDir b p row col dr dc := by
  simp only [bracketDir]
  rw [oppRun_set_origin hd, at8_set8_ne v (runNext_ne_origin hd)]

theorem dirFlips_set_origin {b : Board} {p row col dr dc v : Int}
    (hd : ¬(dr = 0 ∧ dc = 0)) :
    dirFlips (set8 b row col v) p row col dr dc = dirFlips b p row col dr dc := by
  unfold dirFlips
  rw [bracketDir_set_origin hd, oppRun_set_origin hd]

theorem at8_foldl_set_not_mem (p : Int) :
    ∀ (fl : List Pos) (b : Board) (r c : Int), (r, c) ∉ fl →
      at8 (fl.foldl (fun bb q => set8 bb q.1 q.2 p) b) r c = at8 b r c
  | [], _, _, _, _ => rfl
  | x :: xs, b, r, c, h => by
    have hx : ¬(r = x.1 ∧ c = x.2) := by
      rintro ⟨h1, h2⟩
      exact h (by simp [h1, h2, List.mem_cons])
    rw [List.foldl_cons, at8_foldl_set_not_mem p xs _ r c
      fun hm => h (List.mem_cons_of_mem x hm), at8_set8_ne p hx]

theorem okCell_foldl_set (p : Int) :
    ∀ (fl : List Pos) (b : Board) (r c : Int), okCell b r c →
      okCell (fl.foldl (fun bb q => set8 bb q.1 q.2 p) b) r c
  | [], _, _, _, h => h
  | x :: xs, b, r, c, h => by
    rw [List.foldl_cons]
    exact okCell_foldl_set p xs _ r c (okCell_set8 x.1 x.2 p h)

theorem at8_foldl_set_mem (p : Int) :
    ∀ (fl : List Pos) (b : Board) (q : Pos), q ∈ fl → okCell b q.1 q.2 →
      at8 (fl.foldl (fun bb q' => set8 bb q'.1 q'.2 p) b) q.1 q.2 = p
  | [], _, q, hq, _ => absurd hq (List.not_mem_nil q)
  | x :: xs, b, q, hq, hok => by
    rw [List.foldl_cons]
    by_cases hmem : q ∈ xs
    · exact at8_foldl_set_mem p xs _ q hmem (okCell_set8 x.1 x.2 p hok)
    · have hqx : q = x := by
        rcases List.mem_cons.mp hq with h | h
        · exact h
        · exact absurd h hmem
      subst hqx
      rw [at8_foldl_set_not_mem p xs _ q.1 q.2 hmem, at8_set8_same p hok]

/-- The evolution invariant of the mutating flip fold relative to its initial
board `b0`: every recorded flip sits on a genuine cell that held the opponent
in `b0` and holds `p` now, and all other cells are untouched. -/
def Evolved (p : Int) (b0 b : Board) (fl : List Pos) : Prop :=
  (∀ q ∈ fl, okCell b0 q.1 q.2 ∧ at8 b0 q.1 q.2 = -p ∧ at8 b q.1 q.2 = p) ∧
  (∀ r c : Int, (r, c) ∉ fl → at8 b r c = at8 b0 r c)

theorem evolved_nil (p : Int) (b0 : Board) : Evolved p b0 b0 [] :=
  ⟨fun q hq => absurd hq (List.not_mem_nil q), fun _ _ _ => rfl⟩

theorem evolved_step {p : Int} (hp : p = 1 ∨ p = -1) {b0 b : Board} {fl : List Pos}
    (row col : Int) (d : Pos) (he : Evolved p b0 b fl) :
    Evolved p b0 (flipStep p row col (b, fl) d).1 (flipStep p row col (b, fl) d).2 := by
  have hpne : -p ≠ p := by rcases hp with h | h <;> rw [h] <;> decide
  have hpnz : -p ≠ 0 := by rcases hp with h | h <;> rw [h] <;> decide
  obtain ⟨hmem, hframe⟩ := he
  set new := dirFlips b p row col d.1 d.2 with hnew
  have hnewfacts : ∀ q ∈ new, okCell b q.1 q.2 ∧ at8 b q.1 q.2 = -p ∧ q ∉ fl := by
    intro q hq
    obtain ⟨hin, hval, _⟩ := mem_oppRun (dirFlips_subset_oppRun hq)
    have hok : okCell b q.1 q.2 := at8_of_ne_zero (by rw [hval]; exact hpnz)
    refine ⟨hok, hval, fun hqfl => ?_⟩
    have := (hmem q hqfl).2.2
    rw [hval] at this
    exact hpne this
  constructor
  · intro q hq
    simp only [flipStep, ← hnew, List.mem_append] at hq ⊢
    rcases hq with hq | hq
    · obtain ⟨hok0, hval0, hvalb⟩ := hmem q hq
      by_cases hqnew : q ∈ new
      · obtain ⟨hok, _, _⟩ := hnewfacts q hqnew
        exact ⟨hok0, hval0, at8_foldl_set_mem p new b q hqnew hok⟩
      · refine ⟨hok0, hval0, ?_⟩
        rw [show at8 ((new.foldl (fun bb q' => set8 bb q'.1 q'.2 p) b)) q.1 q.2 =
            at8 b q.1 q.2 from at8_foldl_set_not_mem p new b q.1 q.2 (by simpa using hqnew)]
        exact hvalb
    · obtain ⟨hok, hval, hnotfl⟩ := hnewfacts q hq
      have hframe' : at8 b q.1 q.2 = at8 b0 q.1 q.2 := by
        refine hframe q.1 q.2 ?_
        simpa using hnotfl
      have hval0 : at8 b0 q.1 q.2 = -p := by rw [← hframe']; exact hval
      exact ⟨at8_of_ne_zero (by rw [hval0]; exact hpnz), hval0,
        at8_foldl_set_mem p new b q hq hok⟩
  · intro r c hrc
    simp only [flipStep, ← hnew, List.mem_append] at hrc ⊢
    push_neg at hrc
    rw [show at8 ((new.foldl (fun bb q' => set8 bb q'.1 q'.2 p) b)) r c = at8 b r c from
      at8_foldl_set_not_mem p new b r c hrc.2]
    exact hframe r c hrc.1

theorem evolved_fold {p : Int} (hp : p = 1 ∨ p = -1) (row col : Int) {b0 : Board} :
    ∀ (ds : List Pos) (b : Board) (fl : List Pos), Evolved p b0 b fl →
      Evolved p b0 (ds.foldl (flipStep p row col) (b, fl)).1
        (ds.foldl (flipStep p row col) (b, fl)).2
  | [], _, _, he => he
  | d :: ds, b, fl, he => by
    rw [List.foldl_cons]
    have hstep := evolved_step hp row col d he
    have := evolved_fold hp row col ds (flipStep p row col (b, fl) d).1
      (flipStep p row col (b, fl) d).2 hstep
    simpa using this

theorem flipFold_acc (p row col : Int) :
    ∀ (ds : List Pos) (b : Board) (acc : List Pos),
      (ds.foldl (flipStep p row col) (b, acc)).1 =
        (ds.foldl (flipStep p row col) (b, [])).1 ∧
      (ds.foldl (flipStep p row col) (b, acc)).2 =
        acc ++ (ds.foldl (flipStep p row col) (b, [])).2
  | [], _, acc => ⟨rfl, by simp⟩
  | d :: ds, b, acc => by
    rw [List.foldl_cons, List.foldl_cons]
    have h1 := flipFold_acc p row col ds (flipStep p row col (b, acc) d).1
      (flipStep p row col (b, acc) d).2
    have h2 := flipFold_acc p row col ds (flipStep p row col (b, []) d).1
      (flipStep p row col (b, []) d).2
    have hb : (flipStep p row col (b, acc) d).1 = (flipStep p row col (b, []) d).1 := rfl
    have hl : (flipStep p row col (b, acc) d).2 =
        acc ++ (flipStep p row col (b, []) d).2 := by
      simp [flipStep]
    constructor
    · rw [h1.1, hb, ← h2.1]
    · rw [h1.2, hb, hl, h2.2, List.append_assoc]

theorem flipFold_nil_iff (p row col : Int) :
    ∀ (ds : List Pos) (b : Board),
      ((ds.foldl (flipStep p row col) (b, [])).2 = [] ↔
        ∀ d ∈ ds, dirFlips b p row col d.1 d.2 = [])
  | [], b => by simp
  | d :: ds, b => by
    rw [List.foldl_cons]
    by_cases hfl : dirFlips b p row col d.1 d.2 = []
    · have hstep : flipStep p row col (b, []) d = (b, []) := by
        simp [flipStep, hfl]
      rw [hstep, flipFold_nil_iff p row col ds b]
      constructor
      · intro h d' hd'
        rcases List.mem_cons.mp hd' with h' | h'
        · subst h'; exact hfl
        · exact h d' h'
      · intro h d' hd'
        exact h d' (List.mem_cons_of_mem d hd')
    · have hstep : (flipStep p row col (b, []) d).2 = dirFlips b p row col d.1 d.2 := by
        simp [flipStep]
      have hacc := (flipFold_acc p row col ds (flipStep p row col (b, []) d).1
        (flipStep p row col (b, []) d).2).2
      constructor
      · intro h
        rw [hacc, hstep] at h
        exact absurd (List.append_eq_nil.mp h).1 hfl
      · intro h
        exact absurd (h d (List.mem_cons_self d ds)) hfl

/-- `flip_disks` flips nothing at all iff no direction brackets, and in that
case the board is untouched. -/
theorem flip_disks_nil_iff (b : Board) (p row col : Int) :
    ((flip_disks b p row col).2 = [] ↔
      ∀ d ∈ directions, dirFlips b p row col d.1 d.2 = []) :=
  flipFold_nil_iff p row col directions b

theorem foldl_append_acc {α β : Type} (f : β → List α) :
    ∀ (l : List β) (acc : List α),
      (l.foldl (fun a x => a ++ f x) acc) = acc ++ (l.foldl (fun a x => a ++ f x) [])
  | [], acc => by simp
  | x :: xs, acc => by
    rw [List.foldl_cons, List.foldl_cons, foldl_append_acc f xs (acc ++ f x),
      foldl_append_acc f xs ([] ++ f x)]
    simp

theorem foldl_append_nil_iff {α β : Type} (f : β → List α) :
    ∀ (l : List β), (l.foldl (fun a x => a ++ f x) [] = [] ↔ ∀ x ∈ l, f x = [])
  | [] => by simp
  | x :: xs => by
    rw [List.foldl_cons, foldl_append_acc f xs ([] ++ f x)]
    simp only [List.nil_append, List.append_eq_nil, foldl_append_nil_iff f xs,
      List.mem_cons]
    constructor
    · rintro ⟨h1, h2⟩ y hy
      rcases hy with hy | hy
      · subst hy; exact h1
      · exact h2 y hy
    · intro h
      exact ⟨h x (Or.inl rfl), fun y hy => h y (Or.inr hy)⟩

theorem get_flippable_nil_iff (s : GameState) (row col : Int) :
    get_flippable_disks s row col = [] ↔
      ∀ d ∈ directions, dirFlips s.board s.current_player row col d.1 d.2 = [] := by
  unfold get_flippable_disks
  exact foldl_append_nil_iff _ directions

/-- `is_valid_move` on a readable empty target cell outside give-back mode is
exactly the bracket test. -/
theorem is_valid_move_char {s : GameState} {row col : Int}
    (hgb : s.give_back_mode = false) (h0 : pyGet2 s.board row col = some 0) :
    (is_valid_move s row col = some true ↔
      ∃ d ∈ directions, bracketDir s.board s.current_player row col d.1 d.2 = true) := by
  unfold is_valid_move
  rw [hgb, if_neg (by simp), h0]
  simp only [Option.map_some', if_pos rfl, Option.some_inj]
  exact List.any_eq_true

/-!  ### Elimination lemmas for the mutating operations  -/

theorem addTime_fields (s : GameState) (t : Nat) :
    (addTime s t).board = s.board ∧ (addTime s t).current_player = s.current_player ∧
    (addTime s t).give_back_mode = s.give_back_mode ∧
    (addTime s t).flipped_positions = s.flipped_positions ∧
    (addTime s t).consecutive_passes = s.consecutive_passes ∧
    (addTime s t).move_history = s.move_history := by
  unfold addTime; split <;> exact ⟨rfl, rfl, rfl, rfl, rfl, rfl⟩

theorem addTime_timesOf_self (s : GameState) (t : Nat) :
    timesOf (addTime s t) s.current_player = timesOf s s.current_player ++ [t] := by
  unfold addTime timesOf
  by_cases h : s.current_player = 1 <;> simp [h]

theorem addTime_timesOf_other (s : GameState) (t : Nat)
    (hp : s.current_player = 1 ∨ s.current_player = -1) :
    timesOf (addTime s t) (-s.current_player) = timesOf s (-s.current_player) := by
  unfold addTime timesOf
  rcases hp with h | h <;> simp [h]

/-- The state `make_move` builds in its success branch, before deciding
whether to enter give-back mode. -/
def moveCore (s : GameState) (row col : Int) (t : Nat) (placed : Board) : GameState :=
  let s1 := addTime s t
  let record := colorName s.current_player ++ ": " ++ posName row col ++
    " [" ++ fmt2 t ++ "s]"
  let s2 := { s1 with
    last_move := LastAction.at (row, col)
    last_give_back := none
    move_history := s1.move_history ++ [record] }
  let fd := flip_disks placed s.current_player row col
  { s2 with board := fd.1, flipped_positions := fd.2 }

theorem make_move_gb (s : GameState) (row col : Int) (t : Nat)
    (hgb : s.give_back_mode = true) : make_move s row col t = some (s, false) := by
  unfold make_move
  rw [if_pos hgb]

theorem make_move_none (s : GameState) (row col : Int) (t : Nat)
    (hgb : s.give_back_mode = false) (hval : is_valid_move s row col = none) :
    make_move s row col t = none := by
  unfold make_move
  rw [if_neg (by simp [hgb]), hval]

theorem make_move_invalid (s : GameState) (row col : Int) (t : Nat)
    (hgb : s.give_back_mode = false) (hval : is_valid_move s row col = some false) :
    make_move s row col t = some (s, false) := by
  unfold make_move
  rw [if_neg (by simp [hgb]), hval]

theorem make_move_psnone (s : GameState) (row col : Int) (t : Nat)
    (hgb : s.give_back_mode = false) (hval : is_valid_move s row col = some true)
    (hps : pySet s.board row col s.current_player = none) :
    make_move s row col t = none := by
  unfold make_move
  rw [if_neg (by simp [hgb]), hval, hps]

theorem make_move_valid (s : GameState) (row col : Int) (t : Nat) {placed : Board}
    (hgb : s.give_back_mode = false) (hval : is_valid_move s row col = some true)
    (hplaced : pySet s.board row col s.current_player = some placed) :
    make_move s row col t =
      if 2 ≤ (flip_disks placed s.current_player row col).2.length
      then some ({ moveCore s row col t placed with give_back_mode := true }, true)
      else some ({ moveCore s row col t placed with
                    current_player := -(moveCore s row col t placed).current_player },
        true) := by
  unfold make_move
  rw [if_neg (by simp [hgb]), hval, hplaced]
  rfl

theorem make_move_success_elim {s : GameState} {row col : Int} {t : Nat} {s' : GameState}
    (h : make_move s row col t = some (s', true)) :
    s.give_back_mode = false ∧ is_valid_move s row col = some true ∧
    ∃ placed, pySet s.board row col s.current_player = some placed ∧
      s' = (if 2 ≤ (flip_disks placed s.current_player row col).2.length
            then { moveCore s row col t placed with give_back_mode := true }
            else { moveCore s row col t placed with
                    current_player := -(moveCore s row col t placed).current_player }) := by
  by_cases hgb : s.give_back_mode
  · rw [make_move_gb s row col t hgb] at h
    simp at h
  have hgb' : s.give_back_mode = false := by simpa using hgb
  cases hval : is_valid_move s row col with
  | none => rw [make_move_none s row col t hgb' hval] at h; simp at h
  | some bv =>
    cases bv with
    | false => rw [make_move_invalid s row col t hgb' hval] at h; simp at h
    | true =>
      cases hps : pySet s.board row col s.current_player with
      | none => rw [make_move_psnone s row col t hgb' hval hps] at h; simp at h
      | some placed =>
        rw [make_move_valid s row col t hgb' hval hps] at h
        refine ⟨hgb', rfl, placed, rfl, ?_⟩
        by_cases hlen : 2 ≤ (flip_disks placed s.current_player row col).2.length
        · rw [if_pos hlen] at h ⊢
          exact ((Prod.mk.injEq _ _ _ _).mp (Option.some_injective _ h)).1.symm
        · rw [if_neg hlen] at h ⊢
          exact ((Prod.mk.injEq _ _ _ _).mp (Option.some_injective _ h)).1.symm

theorem make_move_false_elim {s : GameState} {row col : Int} {t : Nat} {s' : GameState}
    (h : make_move s row col t = some (s', false)) :
    s' = s ∧ (s.give_back_mode = true ∨ is_valid_move s row col = some false) := by
  by_cases hgb : s.give_back_mode
  · rw [make_move_gb s row col t hgb] at h
    exact ⟨((Prod.mk.injEq _ _ _ _).mp (Option.some_injective _ h)).1.symm, Or.inl hgb⟩
  have hgb' : s.give_back_mode = false := by simpa using hgb
  cases hval : is_valid_move s row col with
  | none => rw [make_move_none s row col t hgb' hval] at h; simp at h
  | some bv =>
    cases bv with
    | false =>
      rw [make_move_invalid s row col t hgb' hval] at h
      exact ⟨((Prod.mk.injEq _ _ _ _).mp (Option.some_injective _ h)).1.symm, Or.inr rfl⟩
    | true =>
      cases hps : pySet s.board row col s.current_player with
      | none => rw [make_move_psnone s row col t hgb' hval hps] at h; simp at h
      | some placed =>
        rw [make_move_valid s row col t hgb' hval hps] at h
        by_cases hlen : 2 ≤ (flip_disks placed s.current_player row col).2.length
        · rw [if_pos hlen] at h
          exact absurd ((Prod.mk.injEq _ _ _ _).mp (Option.some_injective _ h)).2 (by simp)
        · rw [if_neg hlen] at h
          exact absurd ((Prod.mk.injEq _ _ _ _).mp (Option.some_injective _ h)).2 (by simp)

/-- The state `give_back_disk` builds in its success branch. -/
def giveBackCore (s : GameState) (row col : Int) (t : Nat) (b' : Board) : GameState :=
  let s1 := addTime s t
  let record := colorName s.current_player ++ ": gave back at " ++ posName row col ++
    " [" ++ fmt2 t ++ "s]"
  { s1 with
    last_give_back := some (row, col)
    move_history := s1.move_history ++ [record]
    board := b'
    give_back_mode := false
    flipped_positions := []
    current_player := -s.current_player }

theorem give_back_fail (s : GameState) (row col : Int) (t : Nat)
    (hcond : ¬(s.give_back_mode = true ∧ (row, col) ∈ s.flipped_positions)) :
    give_back_disk s row col t = some (s, false) := by
  unfold give_back_disk
  rw [if_neg (by simpa using hcond)]

theorem give_back_none (s : GameState) (row col : Int) (t : Nat)
    (hgb : s.give_back_mode = true) (hmem : (row, col) ∈ s.flipped_positions)
    (hps : pySet s.board row col (-s.current_player) = none) :
    give_back_disk s row col t = none := by
  unfold give_back_disk
  rw [if_pos (by exact ⟨hgb, hmem⟩), hps]

theorem give_back_succeed (s : GameState) (row col : Int) (t : Nat) {b' : Board}
    (hgb : s.give_back_mode = true) (hmem : (row, col) ∈ s.flipped_positions)
    (hb' : pySet s.board row col (-s.current_player) = some b') :
    give_back_disk s row col t = some (giveBackCore s row col t b', true) := by
  unfold give_back_disk
  rw [if_pos (by exact ⟨hgb, hmem⟩), hb']
  rfl

theorem give_back_success_elim {s : GameState} {row col : Int} {t : Nat} {s' : GameState}
    (h : give_back_disk s row col t = some (s', true)) :
    (s.give_back_mode = true ∧ (row, col) ∈ s.flipped_positions) ∧
    ∃ b', pySet s.board row col (-s.current_player) = some b' ∧
      s' = giveBackCore s row col t b' := by
  by_cases hcond : s.give_back_mode = true ∧ (row, col) ∈ s.flipped_positions
  · cases hps : pySet s.board row col (-s.current_player) with
    | none => rw [give_back_none s row col t hcond.1 hcond.2 hps] at h; simp at h
    | some b' =>
      rw [give_back_succeed s row col t hcond.1 hcond.2 hps] at h
      exact ⟨hcond, b', rfl,
        ((Prod.mk.injEq _ _ _ _).mp (Option.some_injective _ h)).1.symm⟩
  · rw [give_back_fail s row col t hcond] at h
    simp at h

theorem give_back_false_elim {s : GameState} {row col : Int} {t : Nat} {s' : GameState}
    (h : give_back_disk s row col t = some (s', false)) :
    s' = s ∧ ¬(s.give_back_mode = true ∧ (row, col) ∈ s.flipped_positions) := by
  by_cases hcond : s.give_back_mode = true ∧ (row, col) ∈ s.flipped_positions
  · cases hps : pySet s.board row col (-s.current_player) with
    | none => rw [give_back_none s row col t hcond.1 hcond.2 hps] at h; simp at h
    | some b' =>
      rw [give_back_succeed s row col t hcond.1 hcond.2 hps] at h
      exact absurd ((Prod.mk.injEq _ _ _ _).mp (Option.some_injective _ h)).2 (by simp)
  · rw [give_back_fail s row col t hcond] at h
    exact ⟨((Prod.mk.injEq _ _ _ _).mp (Option.some_injective _ h)).1.symm, hcond⟩

theorem pass_turn_success_elim {s : GameState} {t : Nat} {s' : GameState}
    (h : pass_turn s t = (s', true)) :
    s'.consecutive_passes = s.consecutive_passes + 1 := by
  unfold pass_turn at h
  split at h
  · exact absurd ((Prod.mk.injEq _ _ _ _).mp h).2 (by simp)
  · rw [← ((Prod.mk.injEq _ _ _ _).mp h).1]
    simp only
    rw [(addTime_fields s t).2.2.2.2.1]

theorem moveCore_fields (s : GameState) (row col : Int) (t : Nat) (placed : Board) :
    (moveCore s row col t placed).consecutive_passes = s.consecutive_passes ∧
    (moveCore s row col t placed).current_player = s.current_player ∧
    (moveCore s row col t placed).give_back_mode = s.give_back_mode ∧
    (moveCore s row col t placed).board = (flip_disks placed s.current_player row col).1 ∧
    (moveCore s row col t placed).flipped_positions =
      (flip_disks placed s.current_player row col).2 ∧
    (moveCore s row col t placed).move_history =
      s.move_history ++ [colorName s.current_player ++ ": " ++ posName row col ++
        " [" ++ fmt2 t ++ "s]"] := by
  have h := addTime_fields s t
  unfold moveCore
  exact ⟨h.2.2.2.2.1, h.2.1, h.2.2.1, rfl, rfl, by simp only [h.2.2.2.2.2]⟩

theorem giveBackCore_fields (s : GameState) (row col : Int) (t : Nat) (b' : Board) :
    (giveBackCore s row col t b').consecutive_passes = s.consecutive_passes ∧
    (giveBackCore s row col t b').board = b' ∧
    (giveBackCore s row col t b').give_back_mode = false ∧
    (giveBackCore s row col t b').flipped_positions = [] ∧
    (giveBackCore s row col t b').current_player = -s.current_player ∧
    (giveBackCore s row col t b').move_history =
      s.move_history ++ [colorName s.current_player ++ ": gave back at " ++
        posName row col ++ " [" ++ fmt2 t ++ "s]"] ∧
    (∀ p : Int, timesOf (giveBackCore s row col t b') p = timesOf (addTime s t) p) := by
  have h := addTime_fields s t
  unfold giveBackCore
  refine ⟨h.2.2.2.2.1, rfl, rfl, rfl, rfl, by simp only [h.2.2.2.2.2], fun p => ?_⟩
  unfold timesOf
  split <;> rfl

/-!  ### Claim results  -/

/-- C4 (amended): for a state outside give-back mode and a target cell that
reads as empty, `is_valid_move` is true iff `get_flippable_disks` is
non-empty.  (As frozen, the claim also asserted the equivalence for occupied
cells and give-back states, which the code refutes: `get_flippable_disks`
checks neither occupancy nor phase.) -/
theorem c4_valid_iff_flippable (s : GameState) (row col : Int)
    (hgb : s.give_back_mode = false) (h0 : pyGet2 s.board row col = some 0) :
    (is_valid_move s row col = some true ↔ get_flippable_disks s row col ≠ []) := by
  rw [is_valid_move_char hgb h0, Ne, get_flippable_nil_iff]
  constructor
  · rintro ⟨d, hd, hbr⟩ hall
    exact dirFlips_ne_nil_iff.mpr hbr (hall d hd)
  · intro h
    push_neg at h
    obtain ⟨d, hd, hne⟩ := h
    exact ⟨d, hd, dirFlips_ne_nil_iff.mp hne⟩

/-- C4 witness: the equivalence applied at the opening move (2,4). -/
theorem c4_witness : get_flippable_disks std_start 2 4 ≠ [] :=
  (c4_valid_iff_flippable std_start 2 4 rfl (by decide)).mp (by decide)

/-- An auxiliary board refuting C4 at an occupied cell: Black at (0,0) and
(0,2) bracketing White at (0,1). -/
def c4_board : Board :=
  set8 (set8 (set8 (List.replicate 8 (List.replicate 8 0)) 0 0 1) 0 1 (-1)) 0 2 1

/-- The game state holding `c4_board` with Black to move. -/
def c4_state : GameState := { std_start with board := c4_board }

/-- C4 counterexample: on the occupied cell (0,0) `is_valid_move` is false yet
`get_flippable_disks` is non-empty, and in give-back phase `is_valid_move` is
false on (2,4) of the start position while `get_flippable_disks` still lists
(3,4) — refuting the claimed equivalence "including for occupied cells and for
states with phase = GiveBack". -/
theorem c4_counterexample :
    is_valid_move c4_state 0 0 = some false ∧
    get_flippable_disks c4_state 0 0 = [(0, 1)] ∧
    is_valid_move { std_start with give_back_mode := true } 2 4 = some false ∧
    get_flippable_disks { std_start with give_back_mode := true } 2 4 = [(3, 4)] := by
  decide

/-- C5 (amended): the code's start position has Black at (3,3) and (4,4), so
`get_valid_moves` on a fresh game returns exactly (2,4), (3,5), (4,2), (5,3)
in row-major order — not the set {(2,3),(3,2),(4,5),(5,4)} the claim names
(which belongs to the mirrored colour assignment). -/
theorem c5_initial_valid_moves :
    get_valid_moves std_start = [(2, 4), (3, 5), (4, 2), (5, 3)] := by decide

/-- C5 counterexample: none of the four claimed cells is a valid opening move
of the constructed game. -/
theorem c5_counterexample :
    ((2, 3) : Pos) ∉ get_valid_moves std_start ∧
    ((3, 2) : Pos) ∉ get_valid_moves std_start ∧
    ((4, 5) : Pos) ∉ get_valid_moves std_start ∧
    ((5, 4) : Pos) ∉ get_valid_moves std_start ∧
    ((2, 4) : Pos) ∈ get_valid_moves std_start := by decide

/-- C6 (amended): `pass_turn` increments `consecutive_passes` by exactly one
on success, while successful `make_move` and `give_back_disk` leave the
counter unchanged — the code never resets it to 0. -/
theorem c6_consecutive_passes (s : GameState) (row col : Int) (t : Nat) :
    (∀ s', pass_turn s t = (s', true) →
      s'.consecutive_passes = s.consecutive_passes + 1) ∧
    (∀ s', make_move s row col t = some (s', true) →
      s'.consecutive_passes = s.consecutive_passes) ∧
    (∀ s', give_back_disk s row col t = some (s', true) →
      s'.consecutive_passes = s.consecutive_passes) := by
  refine ⟨fun s' h => pass_turn_success_elim h, fun s' h => ?_, fun s' h => ?_⟩
  · obtain ⟨-, -, placed, -, hs'⟩ := make_move_success_elim h
    subst hs'
    split
    · exact (moveCore_fields s row col t placed).1
    · exact (moveCore_fields s row col t placed).1
  · obtain ⟨-, b', -, hs'⟩ := give_back_success_elim h
    subst hs'
    exact (giveBackCore_fields s row col t b').1

/-- A state with no disks at all, on which passing is legal. -/
def empty_state : GameState :=
  { std_start with board := List.replicate 8 (List.replicate 8 0) }

/-- C6 witness: a successful pass increments the counter and a successful
opening move leaves it unchanged. -/
theorem c6_witness :
    (∃ s', pass_turn empty_state 0 = (s', true) ∧
      s'.consecutive_passes = empty_state.consecutive_passes + 1) ∧
    (∃ s', make_move std_start 2 4 0 = some (s', true) ∧
      s'.consecutive_passes = std_start.consecutive_passes) := by
  constructor
  · refine ⟨(pass_turn empty_state 0).1, ?_, ?_⟩
    · decide
    · exact (c6_consecutive_passes empty_state 0 0 0).1 _ (by decide)
  · refine ⟨((make_move std_start 2 4 0).getD (std_start, false)).1, ?_, ?_⟩
    · decide
    · exact (c6_consecutive_passes std_start 2 4 0).2.1 _ (by decide)

/-- The start position with a pass already on record. -/
def c6_state : GameState := { std_start with consecutive_passes := 1 }

/-- C6 counterexample: after a successful move from a state with
`consecutive_passes = 1` the counter still reads 1 — `make_move` does not
reset it to 0 as the claim asserts. -/
theorem c6_counterexample :
    (make_move c6_state 2 4 0).map (fun r => (r.1.consecutive_passes, r.2)) =
      some (1, true) ∧ (1 : Nat) ≠ 0 := by decide

/-- C7 (amended): `is_valid_move` fails closed (returns false) in give-back
phase and on occupied cells that Python indexing reaches, but performs no
range check of its own: on an 8-row board, row indices outside -8..7 raise
`IndexError` (modelled as `none`) instead of returning false, and negative
in-range indices alias cells from the opposite end. -/
theorem c7_is_valid_move_guards (s : GameState) (row col : Int) :
    (s.give_back_mode = true → is_valid_move s row col = some false) ∧
    (∀ v, s.give_back_mode = false → pyGet2 s.board row col = some v → v ≠ 0 →
      is_valid_move s row col = some false) ∧
    (s.give_back_mode = false → s.board.length = 8 → (row < -8 ∨ 8 ≤ row) →
      is_valid_move s row col = none) := by
  refine ⟨fun hgb => ?_, fun v hgb hv hvne => ?_, fun hgb hlen hr => ?_⟩
  · unfold is_valid_move
    rw [if_pos hgb]
  · unfold is_valid_move
    rw [if_neg (by simp [hgb]), hv, Option.map_some', if_neg hvne]
  · unfold is_valid_move
    rw [if_neg (by simp [hgb])]
    have hnone : pyGet2 s.board row col = none := by
      unfold pyGet2
      rw [hlen, pyIdx_none (by omega)]
    rw [hnone]
    rfl

/-- C7 witness: the three guards at concrete inputs — give-back phase, the
occupied centre cell (3,3), and the out-of-range row 8. -/
theorem c7_witness :
    is_valid_move { std_start with give_back_mode := true } 0 0 = some false ∧
    is_valid_move std_start 3 3 = some false ∧
    is_valid_move std_start 8 0 = none :=
  ⟨(c7_is_valid_move_guards { std_start with give_back_mode := true } 0 0).1 rfl,
   (c7_is_valid_move_guards std_start 3 3).2.1 1 rfl (by decide) (by decide),
   (c7_is_valid_move_guards std_start 8 0).2.2 rfl (by decide) (by decide)⟩

/-- A board on which the wrapped-around read makes an out-of-range move pair
look legal: White at (0,0), Black at (1,0), row -1 aliasing the empty row 7. -/
def c7_board : Board :=
  set8 (set8 (List.replicate 8 (List.replicate 8 0)) 0 0 (-1)) 1 0 1

/-- The game state holding `c7_board` with Black to move. -/
def c7_state : GameState := { std_start with board := c7_board }

/-- C7 counterexample: for the out-of-range pair (-1, 0) `is_valid_move`
returns true (Python wraps the read to row 7 and then scans from the raw
coordinates), and for (8, 0) it raises instead of returning false. -/
theorem c7_counterexample :
    ¬(0 ≤ (-1 : Int)) ∧ is_valid_move c7_state (-1) 0 = some true ∧
    is_valid_move c7_state 8 0 = none := by decide

/-- C8 (amended): every successful `make_move` appends exactly one move-log
record `"<COLOR>: <pos> [<time>s]"` in which the LETTER encodes the ROW
(`chr(65 + row)`) and the NUMBER the COLUMN (`col + 1`), and the elapsed time
carries exactly two decimal places; a failed move appends nothing. -/
theorem c8_move_log (s : GameState) (row col : Int) (t : Nat) :
    (∀ s', make_move s row col t = some (s', true) →
      s'.move_history = s.move_history ++
        [colorName s.current_player ++ ": " ++ posName row col ++
          " [" ++ fmt2 t ++ "s]"]) ∧
    (∀ s', make_move s row col t = some (s', false) →
      s'.move_history = s.move_history) := by
  constructor
  · intro s' h
    obtain ⟨-, -, placed, -, hs'⟩ := make_move_success_elim h
    subst hs'
    split
    · exact (moveCore_fields s row col t placed).2.2.2.2.2
    · exact (moveCore_fields s row col t placed).2.2.2.2.2
  · intro s' h
    rw [(make_move_false_elim h).1]

/-- C8 witness: the opening move (2,4) at 0.25 s logs exactly
`"BLACK: C5 [0.25s]"`. -/
theorem c8_witness :
    ∃ s', make_move std_start 2 4 25 = some (s', true) ∧
      s'.move_history = ["BLACK: C5 [0.25s]"] := by
  refine ⟨((make_move std_start 2 4 25).getD (std_start, false)).1, by decide, ?_⟩
  rw [(c8_move_log std_start 2 4 25).1 _ (by decide)]
  decide

/-- Modelled from the spec: the claim's reading of the algebraic position —
the COLUMN letter followed by the ROW number, with A1 denoting row 0, col 0 —
so every record conforming to the claim at a given move starts with
`"<COLOR>: " ++ specPositionC8 row col`. -/
def specPositionC8 (row col : Int) : String :=
  String.singleton (Char.ofNat (65 + col).toNat) ++ toString (row + 1)

/-- C8 counterexample: the code logs `"BLACK: C5 [0.25s]"` for the move (2,4)
— row letter then column number, and two decimal places — whereas any record
of the claimed format would begin `"BLACK: E3"`. -/
theorem c8_counterexample :
    (make_move std_start 2 4 25).map (fun r => (r.1.move_history, r.2)) =
      some (["BLACK: C5 [0.25s]"], true) ∧
    specPositionC8 2 4 = "E3" ∧
    ("BLACK: C5 [0.25s]").take 9 = "BLACK: C5" ∧
    "BLACK: C5" ≠ "BLACK: " ++ specPositionC8 2 4 := by decide

/-- C9 (confirmed): `is_game_over` is false during give-back, otherwise true
iff ten passes have accumulated, or the board is full, or neither side has a
move; and the probe restores the state exactly — in particular the current
player — so the opponent-mobility check is side-effect-free. -/
theorem c9_is_game_over_spec (s : GameState) :
    (is_game_over s).2 = s ∧
    ((is_game_over s).1 = true ↔
      s.give_back_mode = false ∧
        (10 ≤ s.consecutive_passes ∨ boardFull s.board = true ∨
          (has_valid_moves s = false ∧ has_valid_moves (flip_player s) = false))) := by
  unfold is_game_over
  by_cases hgb : s.give_back_mode
  · rw [if_pos hgb]
    exact ⟨rfl, by simp [hgb]⟩
  have hgb' : s.give_back_mode = false := by simpa using hgb
  rw [if_neg hgb]
  by_cases hcp : 10 ≤ s.consecutive_passes
  · rw [if_pos hcp]
    exact ⟨rfl, by simp [hgb', hcp]⟩
  rw [if_neg hcp]
  by_cases hfull : boardFull s.board
  · rw [if_pos hfull]
    exact ⟨rfl, by simp [hgb', hfull]⟩
  rw [if_neg hfull]
  constructor
  · show flip_player (flip_player s) = s
    cases s
    simp [flip_player]
  · show (!(has_valid_moves s || has_valid_moves (flip_player s))) = true ↔ _
    simp [hgb', hcp, hfull]

theorem directions_ne_zero : ∀ d ∈ directions, ¬(d.1 = 0 ∧ d.2 = 0) := by decide

theorem is_valid_move_true_elim {s : GameState} {row col : Int}
    (h : is_valid_move s row col = some true) :
    s.give_back_mode = false ∧ pyGet2 s.board row col = some 0 ∧
    ∃ d ∈ directions, bracketDir s.board s.current_player row col d.1 d.2 = true := by
  unfold is_valid_move at h
  split at h
  · simp at h
  next hgb =>
    cases hv : pyGet2 s.board row col with
    | none => rw [hv] at h; simp at h
    | some v =>
      rw [hv, Option.map_some'] at h
      by_cases hv0 : v = 0
      · subst hv0
        rw [if_pos rfl] at h
        exact ⟨by simpa using hgb, rfl, List.any_eq_true.mp (by simpa using h)⟩
      · rw [if_neg hv0] at h
        simp at h

theorem flip_disks_spec {p : Int} (hp : p = 1 ∨ p = -1) (b0 : Board) (row col : Int) :
    Evolved p b0 (flip_disks b0 p row col).1 (flip_disks b0 p row col).2 := by
  unfold flip_disks
  exact evolved_fold hp row col directions b0 [] (evolved_nil p b0)

theorem flip_disks_ne_nil {b0 : Board} {p row col : Int}
    (h : ∃ d ∈ directions, bracketDir b0 p row col d.1 d.2 = true) :
    (flip_disks b0 p row col).2 ≠ [] := by
  intro hnil
  obtain ⟨d, hd, hbr⟩ := h
  exact dirFlips_ne_nil_iff.mpr hbr ((flip_disks_nil_iff b0 p row col).mp hnil d hd)

/-- C1 (confirmed): an in-range `make_move` fails with no state change iff the
phase is give-back or the move is invalid; on success it places the mover's
disk at the target, flips exactly the recorded cells (each of which held the
opponent before and the mover after) leaving every other cell untouched, and
then either enters give-back mode keeping the player (≥ 2 flips) or switches
the player (exactly 1 flip). -/
theorem c1_make_move_spec (s : GameState) (row col : Int) (t : Nat)
    (hr : 0 ≤ row ∧ row < 8) (hc : 0 ≤ col ∧ col < 8)
    (hp : s.current_player = 1 ∨ s.current_player = -1) :
    (make_move s row col t = some (s, false) ↔
      (s.give_back_mode = true ∨ is_valid_move s row col = some false)) ∧
    (is_valid_move s row col = some true →
      ∃ s', make_move s row col t = some (s', true)) ∧
    (∀ s', make_move s row col t = some (s', true) →
      at8 s'.board row col = s.current_player ∧
      s'.flipped_positions ≠ [] ∧
      (∀ q ∈ s'.flipped_positions,
        at8 s.board q.1 q.2 = -s.current_player ∧
        at8 s'.board q.1 q.2 = s.current_player) ∧
      (∀ r c : Int, (r, c) ∉ s'.flipped_positions → ¬(r = row ∧ c = col) →
        at8 s'.board r c = at8 s.board r c) ∧
      (2 ≤ s'.flipped_positions.length →
        s'.give_back_mode = true ∧ s'.current_player = s.current_player) ∧
      (s'.flipped_positions.length < 2 →
        s'.flipped_positions.length = 1 ∧ s'.give_back_mode = false ∧
        s'.current_player = -s.current_player)) := by
  have hpne : -s.current_player ≠ s.current_player := by
    rcases hp with h | h <;> rw [h] <;> decide
  refine ⟨⟨fun h => (make_move_false_elim h).2, fun h => ?_⟩, fun hval => ?_, fun s' h => ?_⟩
  · by_cases hgb : s.give_back_mode
    · exact make_move_gb s row col t hgb
    · rcases h with h | h
      · exact absurd h hgb
      · exact make_move_invalid s row col t (by simpa using hgb) h
  · obtain ⟨hgb, h0, hbr⟩ := is_valid_move_true_elim hval
    obtain ⟨hok, -⟩ := pyGet2_ok hr hc h0
    have hps := pySet_of_okCell s.current_player hok
    by_cases hlen :
      2 ≤ (flip_disks (set8 s.board row col s.current_player)
        s.current_player row col).2.length
    · exact ⟨_, by rw [make_move_valid s row col t hgb hval hps, if_pos hlen]⟩
    · exact ⟨_, by rw [make_move_valid s row col t hgb hval hps, if_neg hlen]⟩
  · obtain ⟨hgb, hval, placed, hps, hs'⟩ := make_move_success_elim h
    obtain ⟨-, h0, hbr⟩ := is_valid_move_true_elim hval
    obtain ⟨hok, hat0⟩ := pyGet2_ok hr hc h0
    have hps' := pySet_of_okCell s.current_player hok
    rw [hps] at hps'
    have hplaced : placed = set8 s.board row col s.current_player :=
      Option.some_injective _ hps'
    subst hplaced
    set p := s.current_player with hpdef
    set placed := set8 s.board row col p with hplaceddef
    have hatorigin : at8 placed row col = p := at8_set8_same p hok
    have hev := flip_disks_spec hp placed row col
    set fd := flip_disks placed p row col with hfddef
    have hbr' : ∃ d ∈ directions, bracketDir placed p row col d.1 d.2 = true := by
      obtain ⟨d, hd, hb⟩ := hbr
      refine ⟨d, hd, ?_⟩
      rw [hplaceddef, bracketDir_set_origin (directions_ne_zero d hd)]
      exact hb
    have hne : fd.2 ≠ [] := flip_disks_ne_nil hbr'
    have horig_not : ((row, col) : Pos) ∉ fd.2 := by
      intro hmem
      have hcontra := (hev.1 (row, col) hmem).2.1
      simp only at hcontra
      rw [hatorigin] at hcontra
      exact hpne hcontra.symm
    have hboard : s'.board = fd.1 := by
      rw [hs']; split <;> exact (moveCore_fields s row col t placed).2.2.2.1
    have hflip : s'.flipped_positions = fd.2 := by
      rw [hs']; split <;> exact (moveCore_fields s row col t placed).2.2.2.2.1
    refine ⟨?_, ?_, ?_, ?_, ?_, ?_⟩
    · rw [hboard]
      rw [show at8 fd.1 row col = at8 placed row col from hev.2 row col horig_not]
      exact hatorigin
    · rw [hflip]; exact hne
    · intro q hq
      rw [hflip] at hq
      obtain ⟨hok0, hvalp, hvalb⟩ := hev.1 q hq
      have hqne : ¬(q.1 = row ∧ q.2 = col) := by
        rintro ⟨e1, e2⟩
        rw [e1, e2, hatorigin] at hvalp
        exact hpne hvalp.symm
      constructor
      · rw [show at8 s.board q.1 q.2 = at8 placed q.1 q.2 from
          (at8_set8_ne p hqne).symm]
        exact hvalp
      · rw [hboard]; exact hvalb
    · intro r c hrc hne'
      rw [hflip] at hrc
      rw [hboard, hev.2 r c hrc, hplaceddef, at8_set8_ne p hne']
    · intro hlen
      rw [hflip] at hlen
      rw [hs', if_pos hlen]
      exact ⟨rfl, (moveCore_fields s row col t placed).2.1⟩
    · intro hlen
      rw [hflip] at hlen
      have hlen1 : fd.2.length = 1 := by
        have := List.length_pos.mpr hne
        omega
      rw [hs', if_neg (by omega)]
      refine ⟨?_, ?_, ?_⟩
      · show (moveCore s row col t placed).flipped_positions.length = 1
        rw [(moveCore_fields s row col t placed).2.2.2.2.1]
        exact hlen1
      · show (moveCore s row col t placed).give_back_mode = false
        rw [(moveCore_fields s row col t placed).2.2.1]
        exact hgb
      · show -(moveCore s row col t placed).current_player = -p
        rw [(moveCore_fields s row col t placed).2.1]

/-- C1 witness: the opening move (2,4) succeeds, places a black disk there,
and records a non-empty flip set. -/
theorem c1_witness :
    ∃ s', make_move std_start 2 4 0 = some (s', true) ∧
      at8 s'.board 2 4 = std_start.current_player ∧ s'.flipped_positions ≠ [] := by
  have heq : make_move std_start 2 4 0 =
      some (((make_move std_start 2 4 0).getD (std_start, false)).1, true) := by decide
  have h := (c1_make_move_spec std_start 2 4 0 (by decide) (by decide)
    (Or.inl rfl)).2.2 _ heq
  exact ⟨_, heq, h.1, h.2.1⟩

theorem count_list_set (v w : Int) :
    ∀ (l : List Int) (n : Nat) (h : n < l.length),
      (l.set n v).count w + (if l[n] = w then 1 else 0) =
        l.count w + (if v = w then 1 else 0)
  | a :: l, 0, _ => by
    simp only [List.set_cons_zero, List.getElem_cons_zero, List.count_cons, beq_iff_eq]
    by_cases hv : v = w <;> by_cases ha : a = w <;> simp [hv, ha]
  | a :: l, n + 1, h => by
    simp only [List.set_cons_succ, List.getElem_cons_succ, List.count_cons, beq_iff_eq]
    have ih := count_list_set v w l n (by simpa using h)
    by_cases ha : a = w <;> simp [ha] <;> omega

theorem boardCount_set_row (w : Int) :
    ∀ (b : Board) (n : Nat) (row' : List Int) (h : n < b.length),
      boardCount (b.set n row') w + (b[n]).count w = boardCount b w + row'.count w
  | r :: b, 0, row', _ => by
    simp only [List.set_cons_zero, List.getElem_cons_zero, boardCount, List.map_cons,
      List.sum_cons]
    omega
  | r :: b, n + 1, row', h => by
    simp only [List.set_cons_succ, List.getElem_cons_succ, boardCount, List.map_cons,
      List.sum_cons]
    have ih := boardCount_set_row w b n row' (by simpa using h)
    simp only [boardCount] at ih
    omega

theorem boardCount_set8 {b : Board} {row col : Int} (v w : Int) (hok : okCell b row col) :
    boardCount (set8 b row col v) w + (if at8 b row col = w then 1 else 0) =
      boardCount b w + (if v = w then 1 else 0) := by
  obtain ⟨hin, hrlen, hclen⟩ := hok
  have hrow : (b[row.toNat]?).getD [] = b[row.toNat] := by
    rw [List.getElem?_eq_getElem hrlen]; rfl
  rw [hrow] at hclen
  have hat : at8 b row col = (b[row.toNat])[col.toNat] := by
    rw [at8, if_pos hin, List.getD_eq_getElem?_getD, List.getD_eq_getElem?_getD, hrow,
      List.getElem?_eq_getElem hclen]
    rfl
  have hgd : b.getD row.toNat [] = b[row.toNat] := by
    rw [List.getD_eq_getElem?_getD, hrow]
  unfold set8
  rw [if_pos hin, hgd, hat]
  have h1 := boardCount_set_row w b row.toNat ((b[row.toNat]).set col.toNat v) hrlen
  have h2 := count_list_set v w (b[row.toNat]) col.toNat hclen
  by_cases hvw : v = w
  · rw [if_pos hvw] at h2 ⊢
    by_cases haw : (b[row.toNat])[col.toNat] = w
    · rw [if_pos haw] at h2 ⊢
      omega
    · rw [if_neg haw] at h2 ⊢
      omega
  · rw [if_neg hvw] at h2 ⊢
    by_cases haw : (b[row.toNat])[col.toNat] = w
    · rw [if_pos haw] at h2 ⊢
      omega
    · rw [if_neg haw] at h2 ⊢
      omega

/-- C2 (confirmed): an in-range `give_back_disk` fails with no state change
iff the phase is not give-back or the chosen cell is not among the pending
flips; on success — from a state where the chosen pending flip holds the
mover's disk, as every state produced by `make_move` does — it hands exactly
that one disk to the opponent (mover's count −1, opponent's +1, all other
cells untouched), clears the phase and the pending flips, appends one log
entry and one timing entry, and switches the player. -/
theorem c2_give_back_spec (s : GameState) (row col : Int) (t : Nat)
    (hr : 0 ≤ row ∧ row < 8) (hc : 0 ≤ col ∧ col < 8)
    (hp : s.current_player = 1 ∨ s.current_player = -1)
    (hcell : s.give_back_mode = true → (row, col) ∈ s.flipped_positions →
      at8 s.board row col = s.current_player) :
    (give_back_disk s row col t = some (s, false) ↔
      ¬(s.give_back_mode = true ∧ (row, col) ∈ s.flipped_positions)) ∧
    (s.give_back_mode = true → (row, col) ∈ s.flipped_positions →
      ∃ s', give_back_disk s row col t = some (s', true) ∧
        at8 s'.board row col = -s.current_player ∧
        boardCount s'.board s.current_player + 1 = boardCount s.board s.current_player ∧
        boardCount s'.board (-s.current_player) =
          boardCount s.board (-s.current_player) + 1 ∧
        (∀ r c : Int, ¬(r = row ∧ c = col) → at8 s'.board r c = at8 s.board r c) ∧
        s'.give_back_mode = false ∧ s'.flipped_positions = [] ∧
        s'.move_history = s.move_history ++
          [colorName s.current_player ++ ": gave back at " ++ posName row col ++
            " [" ++ fmt2 t ++ "s]"] ∧
        timesOf s' s.current_player = timesOf s s.current_player ++ [t] ∧
        timesOf s' (-s.current_player) = timesOf s (-s.current_player) ∧
        s'.current_player = -s.current_player) := by
  have hpnz : s.current_player ≠ 0 := by rcases hp with h | h <;> rw [h] <;> decide
  have hpne : -s.current_player ≠ s.current_player := by
    rcases hp with h | h <;> rw [h] <;> decide
  constructor
  · exact ⟨fun h => (give_back_false_elim h).2, fun h => give_back_fail s row col t h⟩
  · intro hgb hmem
    have hval : at8 s.board row col = s.current_player := hcell hgb hmem
    have hok : okCell s.board row col := at8_of_ne_zero (by rw [hval]; exact hpnz)
    have hps := pySet_of_okCell (-s.current_player) hok
    set b' := set8 s.board row col (-s.current_player) with hb'def
    refine ⟨giveBackCore s row col t b', give_back_succeed s row col t hgb hmem hps,
      ?_, ?_, ?_, ?_, ?_, ?_, ?_, ?_, ?_, ?_⟩
    all_goals have hf := giveBackCore_fields s row col t b'
    · rw [hf.2.1, hb'def, at8_set8_same _ hok]
    · rw [hf.2.1, hb'def]
      have hcnt := boardCount_set8 (-s.current_player) s.current_player hok
      rw [if_pos hval, if_neg hpne] at hcnt
      omega
    · rw [hf.2.1, hb'def]
      have hcnt := boardCount_set8 (-s.current_player) (-s.current_player) hok
      rw [if_neg (by rw [hval]; exact fun e => hpne e.symm), if_pos rfl] at hcnt
      omega
    · intro r c hne
      rw [hf.2.1, hb'def, at8_set8_ne _ hne]
    · exact hf.2.2.1
    · exact hf.2.2.2.1
    · exact hf.2.2.2.2.2.1
    · rw [hf.2.2.2.2.2.2 s.current_player, addTime_timesOf_self]
    · rw [hf.2.2.2.2.2.2 (-s.current_player), addTime_timesOf_other s t hp]
    · exact hf.2.2.2.2.1

/-- A give-back state: Black has just flipped (3,4) on the start position. -/
def c2_state : GameState :=
  { std_start with
    board := set8 initial_board 3 4 1
    give_back_mode := true
    flipped_positions := [(3, 4)] }

/-- C2 witness: giving back (3,4) succeeds, reverts the cell to White and
hands the turn to White. -/
theorem c2_witness :
    ∃ s', give_back_disk c2_state 3 4 7 = some (s', true) ∧
      at8 s'.board 3 4 = -c2_state.current_player ∧
      s'.current_player = -c2_state.current_player := by
  have h := (c2_give_back_spec c2_state 3 4 7 (by decide) (by decide) (Or.inl rfl)
    (fun _ _ => by decide)).2 rfl (by decide)
  obtain ⟨s', heq, hrest⟩ := h
  exact ⟨s', heq, hrest.1, hrest.2.2.2.2.2.2.2.2.2⟩

theorem getD_set_ne_idx {α : Type} (l : List α) (m n : Nat) (x : α) (d : α) (h : m ≠ n) :
    (l.set m x).getD n d = l.getD n d := by
  rw [List.getD_eq_getElem?_getD, List.getD_eq_getElem?_getD, List.getElem?_set_ne h]

theorem getD_set_self_idx {α : Type} (l : List α) (n : Nat) (x : α) (d : α)
    (h : n < l.length) : (l.set n x).getD n d = x := by
  rw [List.getD_eq_getElem?_getD, List.getElem?_set_self h]
  rfl

theorem set8_comm {b : Board} {r1 c1 r2 c2 : Int} (v1 v2 : Int)
    (h : ¬(r1 = r2 ∧ c1 = c2)) :
    set8 (set8 b r1 c1 v1) r2 c2 v2 = set8 (set8 b r2 c2 v2) r1 c1 v1 := by
  by_cases h1 : inB r1 c1
  swap
  · rw [set8_not_inB (show inB r1 c1 = false by simpa using h1),
      @set8_not_inB (set8 b r2 c2 v2) r1 c1 v1 (show inB r1 c1 = false by simpa using h1)]
  by_cases h2 : inB r2 c2
  swap
  · rw [@set8_not_inB (set8 b r1 c1 v1) r2 c2 v2 (show inB r2 c2 = false by simpa using h2),
      set8_not_inB (show inB r2 c2 = false by simpa using h2)]
  obtain ⟨hr1, hr1b, hc1, hc1b⟩ := inB_iff.mp h1
  obtain ⟨hr2, hr2b, hc2, hc2b⟩ := inB_iff.mp h2
  by_cases hrr : r1.toNat = r2.toNat
  · have hreq : r1 = r2 := int_toNat_inj hr1 hr2 hrr
    subst hreq
    have hcc : c1.toNat ≠ c2.toNat := fun hn => h ⟨rfl, int_toNat_inj hc1 hc2 hn⟩
    by_cases hlen : r1.toNat < b.length
    · simp only [set8, h1, h2, if_true]
      rw [getD_set_self_idx _ _ _ _ hlen, getD_set_self_idx _ _ _ _ hlen,
        List.set_set, List.set_set, List.set_comm _ _ _ hcc]
    · have hb1 : ∀ X, b.set r1.toNat X = b := fun X =>
        List.set_eq_of_length_le (Nat.le_of_not_lt hlen)
      simp only [set8, h1, h2, if_true, hb1]
  · simp only [set8, h1, h2, if_true]
    rw [getD_set_ne_idx _ _ _ _ _ hrr, getD_set_ne_idx _ _ _ _ _ (Ne.symm hrr),
      List.set_comm _ _ _ hrr]

theorem foldl_set_set8_comm (p v row col : Int) :
    ∀ (fl : List Pos) (b : Board), (∀ q ∈ fl, ¬(q.1 = row ∧ q.2 = col)) →
      fl.foldl (fun bb q => set8 bb q.1 q.2 p) (set8 b row col v) =
        set8 (fl.foldl (fun bb q => set8 bb q.1 q.2 p) b) row col v
  | [], _, _ => rfl
  | x :: xs, b, h => by
    rw [List.foldl_cons, List.foldl_cons,
      show set8 (set8 b row col v) x.1 x.2 p = set8 (set8 b x.1 x.2 p) row col v from
        set8_comm v p fun ⟨e1, e2⟩ => h x (List.mem_cons_self x xs) ⟨e1.symm, e2.symm⟩]
    exact foldl_set_set8_comm p v row col xs (set8 b x.1 x.2 p)
      fun q hq => h q (List.mem_cons_of_mem x hq)

theorem flipFold_set_origin (p v row col : Int) :
    ∀ (ds : List Pos), (∀ d ∈ ds, d ∈ directions) → ∀ (b : Board) (acc : List Pos),
      ds.foldl (flipStep p row col) (set8 b row col v, acc) =
        (set8 (ds.foldl (flipStep p row col) (b, acc)).1 row col v,
         (ds.foldl (flipStep p row col) (b, acc)).2)
  | [], _, b, acc => rfl
  | d :: ds, hds, b, acc => by
    rw [List.foldl_cons, List.foldl_cons]
    have hd := hds d (List.mem_cons_self d ds)
    have hdz := directions_ne_zero d hd
    have hfl : dirFlips (set8 b row col v) p row col d.1 d.2 =
        dirFlips b p row col d.1 d.2 := dirFlips_set_origin hdz
    have hcells : ∀ q ∈ dirFlips b p row col d.1 d.2, ¬(q.1 = row ∧ q.2 = col) :=
      fun q hq => ray_ne_origin hdz (mem_oppRun (dirFlips_subset_oppRun hq)).2.2
    have hstep : flipStep p row col (set8 b row col v, acc) d =
        (set8 (flipStep p row col (b, acc) d).1 row col v,
          (flipStep p row col (b, acc) d).2) := by
      simp only [flipStep, hfl]
      rw [foldl_set_set8_comm p v row col _ b hcells]
    rw [hstep]
    exact flipFold_set_origin p v row col ds
      (fun d' hd' => hds d' (List.mem_cons_of_mem d hd')) _ _

/-- C10 (confirmed): on a well-formed board, `simulate_move` succeeds exactly
when the Rules Engine's `is_valid_move` accepts the move for `p` on an
equivalent game state in the normal phase, and on success its flipped list and
resulting board coincide with placing the disk and running the engine's
`flip_disks`. -/
theorem c10_simulate_move_refines (b : Board) (row col p : Int)
    (hw : WFBoard b) (hp : p = 1 ∨ p = -1)
    (hr : 0 ≤ row ∧ row < 8) (hc : 0 ≤ col ∧ col < 8) :
    ((simulate_move b row col p).1 = true ↔
      is_valid_move (fresh_game "friend" b p) row col = some true) ∧
    ((simulate_move b row col p).1 = true →
      (simulate_move b row col p).2.1 =
        (flip_disks (set8 b row col p) p row col).2 ∧
      (simulate_move b row col p).2.2 =
        (flip_disks (set8 b row col p) p row col).1) := by
  have h0 : pyGet2 b row col = some (at8 b row col) := pyGet2_wf hw hr hc
  by_cases hempty : at8 b row col = 0
  · rw [hempty] at h0
    have hchar := @is_valid_move_char (fresh_game "friend" b p) row col rfl h0
    have hlock := flipFold_set_origin p p row col directions (fun _ hd => hd) b []
    have hsim : simulate_move b row col p =
        (if (directions.foldl (flipStep p row col) (b, [])).2.isEmpty
         then (false, [], (directions.foldl (flipStep p row col) (b, [])).1)
         else (true, (directions.foldl (flipStep p row col) (b, [])).2,
           set8 (directions.foldl (flipStep p row col) (b, [])).1 row col p)) := by
      unfold simulate_move
      rw [if_neg (by simp [hempty])]
    by_cases hnil : (directions.foldl (flipStep p row col) (b, [])).2 = []
    · have hbool : (directions.foldl (flipStep p row col) (b, [])).2.isEmpty = true := by
        simp [hnil]
      constructor
      · rw [hsim, if_pos hbool]
        constructor
        · intro hft
          exact absurd hft (by simp)
        · intro hval
          obtain ⟨d, hd, hbr⟩ := hchar.mp hval
          exact absurd ((flipFold_nil_iff p row col directions b).mp hnil d hd)
            (dirFlips_ne_nil_iff.mpr hbr)
      · rw [hsim, if_pos hbool]
        intro hfalse
        simp at hfalse
    · have hbool : (directions.foldl (flipStep p row col) (b, [])).2.isEmpty = false := by
        simpa [List.isEmpty_iff] using hnil
      have hvalid : is_valid_move (fresh_game "friend" b p) row col = some true := by
        rw [hchar]
        by_contra hno
        push_neg at hno
        refine hnil ((flipFold_nil_iff p row col directions b).mpr fun d hd => ?_)
        by_contra hfl
        exact hno d hd (dirFlips_ne_nil_iff.mp hfl)
      constructor
      · rw [hsim, if_neg (by simp [hbool])]
        simp [hvalid]
      · intro _
        rw [hsim, if_neg (by simp [hbool])]
        unfold flip_disks
        rw [show directions.foldl (flipStep p row col) (set8 b row col p, []) =
            (set8 (directions.foldl (flipStep p row col) (b, [])).1 row col p,
             (directions.foldl (flipStep p row col) (b, [])).2) from hlock]
        exact ⟨rfl, rfl⟩
  · constructor
    · have hsimf : (simulate_move b row col p).1 = false := by
        unfold simulate_move
        rw [if_pos (by simpa using hempty)]
      have hvalf : is_valid_move (fresh_game "friend" b p) row col = some false := by
        unfold is_valid_move
        rw [if_neg (by simp [fresh_game, initial_game]), show
          pyGet2 (fresh_game "friend" b p).board row col = some (at8 b row col) from h0,
          Option.map_some', if_neg hempty]
      rw [hsimf, hvalf]
      simp
    · intro hfalse
      have hsimf : (simulate_move b row col p).1 = false := by
        unfold simulate_move
        rw [if_pos (by simpa using hempty)]
      rw [hsimf] at hfalse
      simp at hfalse

/-- The board used to witness C10: Black at (0,1), White at (0,2). -/
def c10_board : Board :=
  set8 (set8 (List.replicate 8 (List.replicate 8 0)) 0 1 1) 0 2 (-1)

/-- C10 witness: at the cell (0,3), the simulation succeeds and its flip list
agrees with the engine's. -/
theorem c10_witness :
    (simulate_move c10_board 0 3 1).1 = true ∧
    (simulate_move c10_board 0 3 1).2.1 = (flip_disks (set8 c10_board 0 3 1) 1 0 3).2 ∧
    (simulate_move c10_board 0 3 1).2.2 = (flip_disks (set8 c10_board 0 3 1) 1 0 3).1 := by
  have h := (c10_simulate_move_refines c10_board 0 3 1 (by decide) (Or.inl rfl)
    (by decide) (by decide)).2 (by decide)
  exact ⟨by decide, h.1, h.2⟩

/-!  ### Search-agent lemmas  -/

/-- Cache invariant: every stored value is a genuine evaluation. -/
def CacheOK (c : Cache) : Prop :=
  ∀ k v, lookupCache c k = some v → v.1.isFin = true

theorem cacheOK_nil : CacheOK [] := by
  intro k v h
  simp [lookupCache] at h

theorem lookupCache_cons (c : Cache) (k k' : CKey) (val : XInt × Option Pos) :
    lookupCache (storeCache c k val) k' =
      if k = k' then some val else lookupCache c k' := by
  unfold lookupCache storeCache
  by_cases hk : k = k'
  · rw [if_pos hk, List.find?_cons_of_pos _ (by simpa using hk)]
    rfl
  · rw [if_neg hk, List.find?_cons_of_neg _ (by simpa using hk)]

theorem cacheOK_store {c : Cache} (hc : CacheOK c) (k : CKey) (val : XInt × Option Pos)
    (hfin : val.1.isFin = true) : CacheOK (storeCache c k val) := by
  intro k' v' h
  rw [lookupCache_cons] at h
  split at h
  · rw [← Option.some_injective _ h]
    exact hfin
  · exact hc k' v' h

theorem xlt_ninf {x : XInt} (h : x.isFin = true) : XInt.lt XInt.ninf x = true := by
  cases x <;> simp [XInt.lt, XInt.isFin] at h ⊢

theorem xlt_pinf {x : XInt} (h : x.isFin = true) : XInt.lt x XInt.pinf = true := by
  cases x <;> simp [XInt.lt, XInt.isFin] at h ⊢

theorem inner_fold_mem (s : GameState) (r : Nat) :
    ∀ (l : List Nat) (acc : List Pos) (m : Pos),
      m ∈ l.foldl (fun acc2 c =>
        if is_valid_move s (Int.ofNat r) (Int.ofNat c) = some true
        then acc2 ++ [(Int.ofNat r, Int.ofNat c)] else acc2) acc →
      m ∈ acc ∨ ∃ c ∈ l, is_valid_move s (Int.ofNat r) (Int.ofNat c) = some true ∧
        m = (Int.ofNat r, Int.ofNat c)
  | [], _, _, h => Or.inl h
  | c :: l, acc, m, h => by
    rw [List.foldl_cons] at h
    rcases inner_fold_mem s r l _ m h with h1 | ⟨c', hc', hv, he⟩
    · split at h1
      · next hval =>
        rcases List.mem_append.mp h1 with h2 | h2
        · exact Or.inl h2
        · exact Or.inr ⟨c, List.mem_cons_self c l, hval, by simpa using h2⟩
      · exact Or.inl h1
    · exact Or.inr ⟨c', List.mem_cons_of_mem c hc', hv, he⟩

theorem outer_fold_mem (s : GameState) :
    ∀ (l : List Nat) (acc : List Pos) (m : Pos),
      m ∈ l.foldl (fun acc r => (List.range 8).foldl (fun acc2 c =>
        if is_valid_move s (Int.ofNat r) (Int.ofNat c) = some true
        then acc2 ++ [(Int.ofNat r, Int.ofNat c)] else acc2) acc) acc →
      m ∈ acc ∨ ∃ r ∈ l, ∃ c ∈ List.range 8,
        is_valid_move s (Int.ofNat r) (Int.ofNat c) = some true ∧
        m = (Int.ofNat r, Int.ofNat c)
  | [], _, _, h => Or.inl h
  | r :: l, acc, m, h => by
    rw [List.foldl_cons] at h
    rcases outer_fold_mem s l _ m h with h1 | ⟨r', hr', c', hc', hv, he⟩
    · rcases inner_fold_mem s r (List.range 8) acc m h1 with h2 | ⟨c', hc', hv, he⟩
      · exact Or.inl h2
      · exact Or.inr ⟨r, List.mem_cons_self r l, c', hc', hv, he⟩
    · exact Or.inr ⟨r', List.mem_cons_of_mem r hr', c', hc', hv, he⟩

theorem get_valid_moves_mem {s : GameState} {m : Pos} (hm : m ∈ get_valid_moves s) :
    is_valid_move s m.1 m.2 = some true ∧
    (0 ≤ m.1 ∧ m.1 < 8) ∧ (0 ≤ m.2 ∧ m.2 < 8) := by
  unfold get_valid_moves at hm
  split at hm
  · exact absurd hm (List.not_mem_nil m)
  · rcases outer_fold_mem s (List.range 8) [] m hm with h1 | ⟨r, hr, c, hc, hv, he⟩
    · exact absurd h1 (List.not_mem_nil m)
    · have hr8 := List.mem_range.mp hr
      have hc8 := List.mem_range.mp hc
      subst he
      refine ⟨hv, ⟨?_, ?_⟩, ⟨?_, ?_⟩⟩
      · exact Int.ofNat_nonneg r
      · exact Int.ofNat_lt.mpr hr8
      · exact Int.ofNat_nonneg c
      · exact Int.ofNat_lt.mpr hc8

theorem valid_simulate_succeeds {s : GameState} {m : Pos}
    (hm : m ∈ get_valid_moves s) :
    (simulate_move s.board m.1 m.2 s.current_player).1 = true := by
  obtain ⟨hval, hr, hc⟩ := get_valid_moves_mem hm
  obtain ⟨hgb, h0, hbr⟩ := is_valid_move_true_elim hval
  obtain ⟨hok, hat0⟩ := pyGet2_ok hr hc h0
  have hne : (directions.foldl (flipStep s.current_player m.1 m.2) (s.board, [])).2 ≠ [] := by
    intro hnil
    obtain ⟨d, hd, hbr'⟩ := hbr
    exact absurd ((flipFold_nil_iff _ _ _ directions s.board).mp hnil d hd)
      (dirFlips_ne_nil_iff.mpr hbr')
  unfold simulate_move
  rw [if_neg (by simp [hat0]), if_neg (by simpa [List.isEmpty_iff] using hne)]

theorem sort_moves_subset {sh : List Pos → List Pos} (hsh : ∀ l, List.Perm (sh l) l)
    {moves : List Pos} {m : Pos} (hm : m ∈ sort_moves sh moves) : m ∈ moves := by
  unfold sort_moves at hm
  rcases List.mem_append.mp hm with hm1 | hm1
  · rcases List.mem_append.mp hm1 with hm2 | hm2
    · exact List.mem_of_mem_filter ((hsh _).mem_iff.mp hm2)
    · exact List.mem_of_mem_filter ((hsh _).mem_iff.mp hm2)
  · exact List.mem_of_mem_filter ((hsh _).mem_iff.mp hm1)

theorem sort_moves_ne_nil {sh : List Pos → List Pos} (hsh : ∀ l, List.Perm (sh l) l)
    {moves : List Pos} (hne : moves ≠ []) : sort_moves sh moves ≠ [] := by
  intro hnil
  unfold sort_moves at hnil
  have h3 := List.append_eq_nil.mp hnil
  have h12 := List.append_eq_nil.mp h3.1
  have hf1 : moves.filter (fun m => cornersL.contains m) = [] := by
    have hp := hsh (moves.filter fun m => cornersL.contains m)
    rw [h12.1] at hp
    exact hp.symm.eq_nil
  have hf2 : moves.filter (fun m => !cornersL.contains m && edgesL.contains m) = [] := by
    have hp := hsh (moves.filter fun m => !cornersL.contains m && edgesL.contains m)
    rw [h12.2] at hp
    exact hp.symm.eq_nil
  have hf3 : moves.filter (fun m => !cornersL.contains m && !edgesL.contains m) = [] := by
    have hp := hsh (moves.filter fun m => !cornersL.contains m && !edgesL.contains m)
    rw [h3.2] at hp
    exact hp.symm.eq_nil
  obtain ⟨x, hx⟩ := List.exists_mem_of_ne_nil moves hne
  have hx1 := List.filter_eq_nil.mp hf1 x hx
  have hx2 := List.filter_eq_nil.mp hf2 x hx
  have hx3 := List.filter_eq_nil.mp hf3 x hx
  by_cases hcor : cornersL.contains x
  · exact hx1 hcor
  · have hcor' : cornersL.contains x = false := by simpa using hcor
    by_cases hedg : edgesL.contains x
    · refine hx2 ?_
      simp only [Bool.and_eq_true, Bool.not_eq_true']
      exact ⟨hcor', hedg⟩
    · have hedg' : edgesL.contains x = false := by simpa using hedg
      refine hx3 ?_
      simp only [Bool.and_eq_true, Bool.not_eq_true']
      exact ⟨hcor', hedg'⟩

/-!  ### Alpha-beta loop invariants (C3)  -/

/-- Specification of the abstracted child evaluator used by `abMax` and
`abMin`: from a sound cache it returns a finite value and a sound cache. -/
def ChildSpec (child : Board → Int → XInt → XInt → Cache → XInt × Cache) : Prop :=
  ∀ b1 p1 a1 b2 c1, CacheOK c1 →
    (child b1 p1 a1 b2 c1).1.isFin = true ∧ CacheOK (child b1 p1 a1 b2 c1).2

theorem abMax_go {child : Board → Int → XInt → XInt → Cache → XInt × Cache}
    (hchild : ChildSpec child) (p : Int) (b : Board) (S : List Pos) :
    ∀ (ms : List Pos) (best : XInt) (bm : Option Pos) (a bb : XInt) (c : Cache),
      (∀ x ∈ ms, x ∈ S) → best.isFin = true → CacheOK c →
      (abMax child p b ms best bm a bb c).1.isFin = true ∧
      CacheOK (abMax child p b ms best bm a bb c).2.2 ∧
      ((abMax child p b ms best bm a bb c).2.1 = bm ∨
        ∃ x ∈ S, (abMax child p b ms best bm a bb c).2.1 = some x)
  | [], best, bm, a, bb, c, _, hfin, hc => ⟨hfin, hc, Or.inl rfl⟩
  | m :: ms, best, bm, a, bb, c, hms, hfin, hc => by
    simp only [abMax]
    by_cases hsim : (simulate_move b m.1 m.2 p).1 = true
    · rw [if_neg (by simp [hsim])]
      obtain ⟨hfin1, hok1⟩ :=
        hchild (giveBackAdjust p (simulate_move b m.1 m.2 p)) (-p) a bb c hc
      generalize hrdef :
        child (giveBackAdjust p (simulate_move b m.1 m.2 p)) (-p) a bb c = r
      rw [hrdef] at hfin1 hok1
      have hfinb : (if XInt.lt best r.1 = true then r.1 else best).isFin = true := by
        split
        · exact hfin1
        · exact hfin
      have hbm' : (if XInt.lt best r.1 = true then some m else bm) = bm ∨
          ∃ x ∈ S, (if XInt.lt best r.1 = true then some m else bm) = some x := by
        split
        · exact Or.inr ⟨m, hms m (List.mem_cons_self m ms), rfl⟩
        · exact Or.inl rfl
      by_cases hcut : XInt.lt (XInt.maxP a r.1) bb = true
      · rw [if_pos hcut]
        obtain ⟨h1, h2, h3⟩ := abMax_go hchild p b S ms
          (if XInt.lt best r.1 = true then r.1 else best)
          (if XInt.lt best r.1 = true then some m else bm)
          (XInt.maxP a r.1) bb r.2
          (fun x hx => hms x (List.mem_cons_of_mem m hx)) hfinb hok1
        refine ⟨h1, h2, ?_⟩
        rcases h3 with h3 | h3
        · rw [h3]
          exact hbm'
        · exact Or.inr h3
      · rw [if_neg hcut]
        exact ⟨hfinb, hok1, hbm'⟩
    · have hs' : (simulate_move b m.1 m.2 p).1 = false := by simpa using hsim
      rw [if_pos (by simp [hs'])]
      exact abMax_go hchild p b S ms best bm a bb c
        (fun x hx => hms x (List.mem_cons_of_mem m hx)) hfin hc

theorem abMin_go {child : Board → Int → XInt → XInt → Cache → XInt × Cache}
    (hchild : ChildSpec child) (p : Int) (b : Board) (S : List Pos) :
    ∀ (ms : List Pos) (best : XInt) (bm : Option Pos) (a bb : XInt) (c : Cache),
      (∀ x ∈ ms, x ∈ S) → best.isFin = true → CacheOK c →
      (abMin child p b ms best bm a bb c).1.isFin = true ∧
      CacheOK (abMin child p b ms best bm a bb c).2.2 ∧
      ((abMin child p b ms best bm a bb c).2.1 = bm ∨
        ∃ x ∈ S, (abMin child p b ms best bm a bb c).2.1 = some x)
  | [], best, bm, a, bb, c, _, hfin, hc => ⟨hfin, hc, Or.inl rfl⟩
  | m :: ms, best, bm, a, bb, c, hms, hfin, hc => by
    simp only [abMin]
    by_cases hsim : (simulate_move b m.1 m.2 p).1 = true
    · rw [if_neg (by simp [hsim])]
      obtain ⟨hfin1, hok1⟩ :=
        hchild (giveBackAdjust p (simulate_move b m.1 m.2 p)) (-p) a bb c hc
      generalize hrdef :
        child (giveBackAdjust p (simulate_move b m.1 m.2 p)) (-p) a bb c = r
      rw [hrdef] at hfin1 hok1
      have hfinb : (if XInt.lt r.1 best = true then r.1 else best).isFin = true := by
        split
        · exact hfin1
        · exact hfin
      have hbm' : (if XInt.lt r.1 best = true then some m else bm) = bm ∨
          ∃ x ∈ S, (if XInt.lt r.1 best = true then some m else bm) = some x := by
        split
        · exact Or.inr ⟨m, hms m (List.mem_cons_self m ms), rfl⟩
        · exact Or.inl rfl
      by_cases hcut : XInt.lt a (XInt.minP bb r.1) = true
      · rw [if_pos hcut]
        obtain ⟨h1, h2, h3⟩ := abMin_go hchild p b S ms
          (if XInt.lt r.1 best = true then r.1 else best)
          (if XInt.lt r.1 best = true then some m else bm)
          a (XInt.minP bb r.1) r.2
          (fun x hx => hms x (List.mem_cons_of_mem m hx)) hfinb hok1
        refine ⟨h1, h2, ?_⟩
        rcases h3 with h3 | h3
        · rw [h3]
          exact hbm'
        · exact Or.inr h3
      · rw [if_neg hcut]
        exact ⟨hfinb, hok1, hbm'⟩
    · have hs' : (simulate_move b m.1 m.2 p).1 = false := by simpa using hsim
      rw [if_pos (by simp [hs'])]
      exact abMin_go hchild p b S ms best bm a bb c
        (fun x hx => hms x (List.mem_cons_of_mem m hx)) hfin hc

theorem abMax_start {child : Board → Int → XInt → XInt → Cache → XInt × Cache}
    (hchild : ChildSpec child) (p : Int) (b : Board) (S : List Pos) :
    ∀ (ms : List Pos) (a bb : XInt) (c : Cache),
      (∀ x ∈ ms, x ∈ S) → CacheOK c →
      (∃ x ∈ ms, (simulate_move b x.1 x.2 p).1 = true) →
      (abMax child p b ms XInt.ninf none a bb c).1.isFin = true ∧
      CacheOK (abMax child p b ms XInt.ninf none a bb c).2.2 ∧
      ∃ x ∈ S, (abMax child p b ms XInt.ninf none a bb c).2.1 = some x
  | [], a, bb, c, _, _, hex => absurd hex (by simp)
  | m :: ms, a, bb, c, hms, hc, hex => by
    simp only [abMax]
    by_cases hsim : (simulate_move b m.1 m.2 p).1 = true
    · rw [if_neg (by simp [hsim])]
      obtain ⟨hfin1, hok1⟩ :=
        hchild (giveBackAdjust p (simulate_move b m.1 m.2 p)) (-p) a bb c hc
      generalize hrdef :
        child (giveBackAdjust p (simulate_move b m.1 m.2 p)) (-p) a bb c = r
      rw [hrdef] at hfin1 hok1
      have hlt : XInt.lt XInt.ninf r.1 = true := xlt_ninf hfin1
      rw [if_pos hlt, if_pos hlt]
      by_cases hcut : XInt.lt (XInt.maxP a r.1) bb = true
      · rw [if_pos hcut]
        obtain ⟨h1, h2, h3⟩ := abMax_go hchild p b S ms r.1 (some m)
          (XInt.maxP a r.1) bb r.2
          (fun x hx => hms x (List.mem_cons_of_mem m hx)) hfin1 hok1
        refine ⟨h1, h2, ?_⟩
        rcases h3 with h3 | h3
        · exact ⟨m, hms m (List.mem_cons_self m ms), h3⟩
        · exact h3
      · rw [if_neg hcut]
        exact ⟨hfin1, hok1, m, hms m (List.mem_cons_self m ms), rfl⟩
    · have hs' : (simulate_move b m.1 m.2 p).1 = false := by simpa using hsim
      rw [if_pos (by simp [hs'])]
      have hex' : ∃ x ∈ ms, (simulate_move b x.1 x.2 p).1 = true := by
        obtain ⟨x, hx, hsx⟩ := hex
        rcases List.mem_cons.mp hx with he | he
        · rw [he] at hsx
          exact absurd hsx hsim
        · exact ⟨x, he, hsx⟩
      exact abMax_start hchild p b S ms a bb c
        (fun x hx => hms x (List.mem_cons_of_mem m hx)) hc hex'

theorem abMin_start {child : Board → Int → XInt → XInt → Cache → XInt × Cache}
    (hchild : ChildSpec child) (p : Int) (b : Board) (S : List Pos) :
    ∀ (ms : List Pos) (a bb : XInt) (c : Cache),
      (∀ x ∈ ms, x ∈ S) → CacheOK c →
      (∃ x ∈ ms, (simulate_move b x.1 x.2 p).1 = true) →
      (abMin child p b ms XInt.pinf none a bb c).1.isFin = true ∧
      CacheOK (abMin child p b ms XInt.pinf none a bb c).2.2 ∧
      ∃ x ∈ S, (abMin child p b ms XInt.pinf none a bb c).2.1 = some x
  | [], a, bb, c, _, _, hex => absurd hex (by simp)
  | m :: ms, a, bb, c, hms, hc, hex => by
    simp only [abMin]
    by_cases hsim : (simulate_move b m.1 m.2 p).1 = true
    · rw [if_neg (by simp [hsim])]
      obtain ⟨hfin1, hok1⟩ :=
        hchild (giveBackAdjust p (simulate_move b m.1 m.2 p)) (-p) a bb c hc
      generalize hrdef :
        child (giveBackAdjust p (simulate_move b m.1 m.2 p)) (-p) a bb c = r
      rw [hrdef] at hfin1 hok1
      have hlt : XInt.lt r.1 XInt.pinf = true := xlt_pinf hfin1
      rw [if_pos hlt, if_pos hlt]
      by_cases hcut : XInt.lt a (XInt.minP bb r.1) = true
      · rw [if_pos hcut]
        obtain ⟨h1, h2, h3⟩ := abMin_go hchild p b S ms r.1 (some m)
          a (XInt.minP bb r.1) r.2
          (fun x hx => hms x (List.mem_cons_of_mem m hx)) hfin1 hok1
        refine ⟨h1, h2, ?_⟩
        rcases h3 with h3 | h3
        · exact ⟨m, hms m (List.mem_cons_self m ms), h3⟩
        · exact h3
      · rw [if_neg hcut]
        exact ⟨hfin1, hok1, m, hms m (List.mem_cons_self m ms), rfl⟩
    · have hs' : (simulate_move b m.1 m.2 p).1 = false := by simpa using hsim
      rw [if_pos (by simp [hs'])]
      have hex' : ∃ x ∈ ms, (simulate_move b x.1 x.2 p).1 = true := by
        obtain ⟨x, hx, hsx⟩ := hex
        rcases List.mem_cons.mp hx with he | he
        · rw [he] at hsx
          exact absurd hsx hsim
        · exact ⟨x, he, hsx⟩
      exact abMin_start hchild p b S ms a bb c
        (fun x hx => hms x (List.mem_cons_of_mem m hx)) hc hex'

theorem alphabeta_spec (sh : List Pos → List Pos) (hsh : ∀ l, List.Perm (sh l) l) :
    ∀ (d : Nat) (g : GameState) (maxing : Bool) (a bb : XInt) (c : Cache), CacheOK c →
      (alphabeta sh d g maxing a bb c).1.isFin = true ∧
      CacheOK (alphabeta sh d g maxing a bb c).2.2
  | 0, g, maxing, a, bb, c, hc => ⟨rfl, hc⟩
  | Nat.succ d, g, maxing, a, bb, c, hc => by
    simp only [alphabeta]
    split
    · exact ⟨rfl, hc⟩
    · split
      · rename_i r heq
        exact ⟨hc _ _ heq, hc⟩
      · rename_i heq
        by_cases hemp : (get_valid_moves g).isEmpty = true
        · rw [if_pos hemp]
          exact alphabeta_spec sh hsh d
            (fresh_game g.player_mode g.board (-g.current_player)) (!maxing) a bb c hc
        · rw [if_neg hemp]
          have hmne : get_valid_moves g ≠ [] := by
            simpa [List.isEmpty_iff] using hemp
          obtain ⟨m0, hm0⟩ := List.exists_mem_of_ne_nil _ (sort_moves_ne_nil hsh hmne)
          have hchild : ChildSpec (fun b1 p1 a1 b2 c1 =>
              let r := alphabeta sh d (fresh_game g.player_mode b1 p1) (!maxing) a1 b2 c1
              (r.1, r.2.2)) := by
            intro b1 p1 a1 b2 c1 hc1
            exact alphabeta_spec sh hsh d (fresh_game g.player_mode b1 p1)
              (!maxing) a1 b2 c1 hc1
          have hex : ∃ x ∈ sort_moves sh (get_valid_moves g),
              (simulate_move g.board x.1 x.2 g.current_player).1 = true :=
            ⟨m0, hm0, valid_simulate_succeeds (sort_moves_subset hsh hm0)⟩
          by_cases hmax : maxing = true
          · rw [if_pos hmax]
            obtain ⟨h1, h2, -⟩ := abMax_start hchild g.current_player g.board
              (sort_moves sh (get_valid_moves g)) (sort_moves sh (get_valid_moves g))
              a bb c (fun x hx => hx) hc hex
            exact ⟨h1, cacheOK_store h2 _ _ h1⟩
          · rw [if_neg hmax]
            obtain ⟨h1, h2, -⟩ := abMin_start hchild g.current_player g.board
              (sort_moves sh (get_valid_moves g)) (sort_moves sh (get_valid_moves g))
              a bb c (fun x hx => hx) hc hex
            exact ⟨h1, cacheOK_store h2 _ _ h1⟩

theorem alphabeta_root (sh : List Pos → List Pos) (hsh : ∀ l, List.Perm (sh l) l)
    (d : Nat) (hd : d ≠ 0) (g : GameState) (hover : (is_game_over g).1 = false)
    (hmoves : get_valid_moves g ≠ []) :
    ∃ x ∈ get_valid_moves g,
      (alphabeta sh d g true XInt.ninf XInt.pinf []).2.1 = some x := by
  cases d with
  | zero => exact absurd rfl hd
  | succ d =>
    simp only [alphabeta]
    rw [if_neg (by simp [hover])]
    have hlk : lookupCache [] (g.board, d + 1, true) = none := rfl
    simp only [hlk]
    rw [if_neg (by simpa [List.isEmpty_iff] using hmoves), if_pos True.intro]
    have hchild : ChildSpec (fun b1 p1 a1 b2 c1 =>
        let r := alphabeta sh d (fresh_game g.player_mode b1 p1) (!true) a1 b2 c1
        (r.1, r.2.2)) := by
      intro b1 p1 a1 b2 c1 hc1
      exact alphabeta_spec sh hsh d (fresh_game g.player_mode b1 p1) (!true) a1 b2 c1 hc1
    obtain ⟨m0, hm0⟩ := List.exists_mem_of_ne_nil _ (sort_moves_ne_nil hsh hmoves)
    obtain ⟨-, -, x, hxS, hsome⟩ := abMax_start hchild g.current_player g.board
      (sort_moves sh (get_valid_moves g)) (sort_moves sh (get_valid_moves g))
      XInt.ninf XInt.pinf [] (fun x hx => hx) cacheOK_nil
      ⟨m0, hm0, valid_simulate_succeeds (sort_moves_subset hsh hm0)⟩
    exact ⟨x, sort_moves_subset hsh hxS, hsome⟩

theorem gbLoop_mem (sh : List Pos → List Pos) (g : GameState) (maxd : Nat) (S : List Pos) :
    ∀ (opts : List Pos) (bestScore : XInt) (best : Pos) (c : Cache),
      best ∈ S → (∀ o ∈ opts, o ∈ S) →
      (gbLoop sh g maxd opts bestScore best c).1 ∈ S
  | [], _, best, c, hb, _ => hb
  | pos :: rest, bestScore, best, c, hb, hopts => by
    simp only [gbLoop]
    split
    · exact gbLoop_mem sh g maxd S rest _ pos _
        (hopts pos (List.mem_cons_self pos rest))
        (fun o ho => hopts o (List.mem_cons_of_mem pos ho))
    · exact gbLoop_mem sh g maxd S rest _ best _ hb
        (fun o ho => hopts o (List.mem_cons_of_mem pos ho))

/-- C3 (amended): when the search starts from an *empty* position cache — the
original claim fails for a poisoned cache carried over from an earlier call,
because the cache key omits the side to move — `get_best_move` on a
non-terminal normal-phase state with at least one valid move returns a member
of `get_valid_moves`, and in give-back phase with a pending flip it returns a
member of `flipped_positions`; in neither case does it return no move.
Quantified over every possible behaviour `sh` of the unseeded
`random.shuffle`. -/
theorem c3_get_best_move_spec (g : GameState) (sh : List Pos → List Pos)
    (hsh : ∀ l, List.Perm (sh l) l) :
    (g.give_back_mode = false → (is_game_over g).1 = false → get_valid_moves g ≠ [] →
      ∃ x, (get_best_move sh g 8 []).1 = some x ∧ x ∈ get_valid_moves g) ∧
    (g.give_back_mode = true → g.flipped_positions ≠ [] →
      ∃ x, (get_best_move sh g 8 []).1 = some x ∧ x ∈ g.flipped_positions) := by
  constructor
  · intro hgb hover hmoves
    simp only [get_best_move]
    rw [if_neg (by simp [hgb])]
    have hd : (if boardCount g.board 0 ≤ 10 then 6
        else if 50 ≤ boardCount g.board 0 then 4 else 8 : Nat) ≠ 0 := by
      split
      · decide
      · split <;> decide
    obtain ⟨x, hx, hsome⟩ := alphabeta_root sh hsh _ hd g hover hmoves
    exact ⟨x, hsome, hx⟩
  · intro hgb hne
    simp only [get_best_move]
    rw [if_pos hgb]
    rcases hflip : g.flipped_positions with _ | ⟨o, rest⟩
    · exact absurd hflip hne
    · have hunf : get_best_give_back sh g 6 [] =
          (if rest.isEmpty = true then (some o, ([] : Cache)) else
            (some (gbLoop sh g 6 (o :: rest) XInt.pinf o []).1,
             (gbLoop sh g 6 (o :: rest) XInt.pinf o []).2)) := by
        unfold get_best_give_back
        rw [hflip]
      rw [hunf]
      by_cases hrest : rest.isEmpty = true
      · rw [if_pos hrest]
        exact ⟨o, rfl, List.mem_cons_self o rest⟩
      · rw [if_neg hrest]
        exact ⟨(gbLoop sh g 6 (o :: rest) XInt.pinf o []).1, rfl,
          gbLoop_mem sh g 6 (o :: rest) (o :: rest) XInt.pinf o []
            (List.mem_cons_self o rest) (fun x hx => hx)⟩

/-- A give-back state: Black has just flipped the single disk (3,3). -/
def c3_gb_state : GameState :=
  { std_start with give_back_mode := true
                   flipped_positions := [(3, 3)] }

/-- C3 witness: from an empty cache, the search from the standard start
position returns a valid Black move, and the give-back search on a pending
flip returns one of the flipped disks. -/
theorem c3_witness :
    (∃ x, (get_best_move id std_start 8 []).1 = some x ∧ x ∈ get_valid_moves std_start) ∧
    (∃ x, (get_best_move id c3_gb_state 8 []).1 = some x ∧
      x ∈ c3_gb_state.flipped_positions) :=
  ⟨(c3_get_best_move_spec std_start id (fun l => List.Perm.refl l)).1 rfl
      (by decide) (by decide),
   (c3_get_best_move_spec c3_gb_state id (fun l => List.Perm.refl l)).2 rfl (by decide)⟩

/-- The board of the C3 counterexample: Black at (0,1), White at (0,2) on an
otherwise empty board.  Black's one move is (0,3); White's one move is (0,0). -/
def c3_board : Board :=
  set8 (set8 (List.replicate 8 (List.replicate 8 0)) 0 1 1) 0 2 (-1)

/-- `c3_board` with Black to move. -/
def c3_black : GameState := { std_start with board := c3_board }

/-- `c3_board` with White to move. -/
def c3_white : GameState :=
  { std_start with board := c3_board
                   current_player := -1 }

/-- C3 counterexample: the cache key `(hash(str(board)), max_depth,
maximizing_player)` omits the side to move, and the module-level
`position_cache` survives across calls.  After a search for Black on
`c3_board`, the search for White on the same board (same key) replays Black's
cached answer (0,3), which is not among White's valid moves — refuting the
claim that `get_best_move` on a non-terminal state always returns a member of
`get_valid_moves`. -/
theorem c3_counterexample :
    c3_white.give_back_mode = false ∧ (is_game_over c3_white).1 = false ∧
    get_valid_moves c3_white = [(0, 0)] ∧
    (get_best_move id c3_white 8 ((get_best_move id c3_black 8 []).2)).1 = some (0, 3) ∧
    ((0, 3) : Pos) ∉ get_valid_moves c3_white := by
  decide


end Othello
